import Mathlib

/-!
# Newsboat: help listing (`HelpFormAction`) and text view scrolling (`TextviewWidget`)

A shallow embedding of `src/helpformaction.cpp` and of the scroll controller exercised by
`test/textviewwidget.cpp`.

Conventions of the embedding.

* A `std::string` is a `String`; every `Char` stands for one byte, so `String.length` is
  `std::string::length()`.
* `size_t` is 64 bits wide, `int` and `unsigned int` are 32 bits wide; arithmetic on them is
  written with explicit `%`.
* Code whose behaviour is undefined in C++ (a write past the end of an array) returns `none`.
-/

namespace Newsboat

/-! ## Strings and libc -/

/-- The NUL byte that terminates a C string. -/
def NUL : Char := Char.ofNat 0

/-- `std::string::c_str()` as seen by a C function: the bytes up to the first NUL. -/
def c_str (s : String) : List Char :=
  s.data.takeWhile (fun c => c != NUL)

/-- `tolower(3)` on a single byte in the "C" and UTF-8 locales: only `A`..`Z` are folded. -/
def tolower (c : Char) : Char :=
  if 65 ≤ c.toNat ∧ c.toNat ≤ 90 then Char.ofNat (c.toNat + 32) else c

/-- Whether `needle` occurs at the very start of `text`, ignoring case. -/
def starts_with_nocase : List Char → List Char → Bool
  | _, [] => true
  | [], _ :: _ => false
  | t :: ts, p :: ps => tolower t == tolower p && starts_with_nocase ts ps

/-- Scan of `strcasestr(3)`: the first position `k + j` at which `needle` occurs in the rest of the
haystack, ignoring case; `none` is the null pointer. -/
def strcasestr_from (needle : List Char) : List Char → Nat → Option Nat
  | [], k => if needle.isEmpty then some k else none
  | c :: cs, k =>
    if starts_with_nocase (c :: cs) needle then some k else strcasestr_from needle cs (k + 1)

/-- `strcasestr(haystack, needle)` of libc: offset of the first occurrence of `needle` in
`haystack`, ignoring case, or `none` for the null pointer. -/
def strcasestr (haystack needle : List Char) : Option Nat :=
  strcasestr_from needle haystack 0

/-- One replacement sweep over the characters of a string: `skip` characters of an occurrence that
was just replaced are still to be dropped. -/
def replace_all_from (src dst : List Char) : Nat → List Char → List Char
  | _, [] => []
  | skip + 1, _ :: cs => replace_all_from src dst skip cs
  | 0, c :: cs =>
    if src.isPrefixOf (c :: cs) then dst ++ replace_all_from src dst (src.length - 1) cs
    else c :: replace_all_from src dst 0 cs

/-- Modelled from the spec: `utils::replace_all(str, from, to)` (utils.cpp is not under src/), which
replaces every literal occurrence of `from` in `str` by `to`, scanning from the left; the inserted
text is not scanned again. An empty `from` leaves the string unchanged. -/
def replace_all (str src dst : String) : String :=
  if src.data.isEmpty then str else String.mk (replace_all_from src.data dst.data 0 str.data)

/-- Modelled from the spec: the gettext marker `_` (config.h is not under src/); the spec names the
headers by their message ids, so the message id is returned untranslated. -/
def gettext (msgid : String) : String := msgid

/-! ## Key map descriptions and the collaborators of `prepare` -/

/-- `KeyMapDesc` of keymap.h: one line of the help listing. -/
structure KeyMapDesc where
  key : String
  cmd : String
  desc : String
  ctx : String
  flags : Nat
deriving DecidableEq, Repr

/-- What `HelpFormAction::prepare` takes from files that are not under src/: the bit mask
`KM_SYSKEYS` of keymap.h and the escaping function `utils::quote_for_stfl`. -/
structure Externals where
  KM_SYSKEYS : Nat
  quote_for_stfl : String → String

/-- Modelled from the spec: `ListFormatter` (the LineBuffer; listformatter.cpp is not under src/):
an ordered sequence of lines, created empty. -/
structure ListFormatter where
  lines : List String
deriving DecidableEq, Repr

/-- Modelled from the spec: `ListFormatter::add_line(text)` appends `text` verbatim. -/
def ListFormatter.add_line (self : ListFormatter) (text : String) : ListFormatter :=
  ⟨self.lines ++ [text]⟩

/-- Modelled from the spec: `ListFormatter::get_lines_count()`, the current length. -/
def ListFormatter.get_lines_count (self : ListFormatter) : Nat :=
  self.lines.length

/-- The fields of `HelpFormAction` that `prepare` reads. -/
structure HelpFormAction where
  context : String
  searchphrase : String
  apply_search : Bool
deriving DecidableEq, Repr

/-- The locals of `prepare` that live across loop iterations. -/
structure PrepareState where
  unbound_count : Nat
  syskey_count : Nat
  listfmt : ListFormatter
deriving DecidableEq, Repr

/-! ## `HelpFormAction::prepare` -/

/-- The test `desc.flags & KM_SYSKEYS`. -/
def is_syskey (ext : Externals) (desc : KeyMapDesc) : Bool :=
  desc.flags &&& ext.KM_SYSKEYS != 0

/-- The variable `condition` of pass `i` (lines 89-109). -/
def condition (ext : Externals) (i : Nat) (desc : KeyMapDesc) : Bool :=
  match i with
  | 0 => desc.key.length == 0 || is_syskey ext desc
  | 1 => !(is_syskey ext desc)
  | 2 => decide (desc.key.length > 0) || is_syskey ext desc
  | _ => true

/-- Increment of an `unsigned int`. -/
def incr_u32 (n : Nat) : Nat := (n + 1) % 2 ^ 32

/-- The counting done in `case 0` (lines 94-97). -/
def count (ext : Externals) (i : Nat) (st : PrepareState) (desc : KeyMapDesc) : PrepareState :=
  if i = 0 then
    let unbound := if desc.key.length == 0 then incr_u32 st.unbound_count else st.unbound_count
    let syskey := if is_syskey ext desc then incr_u32 st.syskey_count else st.syskey_count
    ⟨unbound, syskey, st.listfmt⟩
  else st

/-- The guard of `continue` (lines 110-112). -/
def skipped (ext : Externals) (self : HelpFormAction) (i : Nat) (desc : KeyMapDesc) : Bool :=
  decide (self.context.length > 0) && (desc.ctx != self.context || condition ext i desc)

/-- The search test (lines 113-122). -/
def search_matches (self : HelpFormAction) (desc : KeyMapDesc) : Bool :=
  !self.apply_search ||
    (strcasestr (c_str desc.key) (c_str self.searchphrase)).isSome ||
    (strcasestr (c_str desc.cmd) (c_str self.searchphrase)).isSome ||
    (strcasestr (c_str desc.desc) (c_str self.searchphrase)).isSome

/-- Conversion of a `size_t` value to `int`: the low 32 bits, read as two's complement. -/
def to_int (x : Nat) : Int :=
  if x % 2 ^ 32 < 2 ^ 31 then ((x % 2 ^ 32 : Nat) : Int) else ((x % 2 ^ 32 : Nat) : Int) - 2 ^ 32

/-- The value of `how_often_1` / `how_often_2` after lines 126-133: `strlen(tabs) - length` in
`size_t`, converted to `int`, and replaced by 1 when not positive. -/
def how_often (strlen_tabs length : Nat) : Int :=
  let diff := (strlen_tabs + 2 ^ 64 - length % 2 ^ 64) % 2 ^ 64
  if to_int diff ≤ 0 then 1 else to_int diff

/-- The buffer `tabs` of `width` spaces after `tabs[idx] = '\0'` (lines 134-135), read as a C
string; the array has `width + 1` elements, a write outside of it is undefined. -/
def terminate_at (width : Nat) (idx : Int) : Option String :=
  if 0 ≤ idx ∧ idx ≤ (width : Int) then some (String.mk (List.replicate idx.toNat ' ')) else none

/-- The text of `line` before escaping (lines 136-156); the `switch` has no default branch. -/
def format_line (i : Nat) (desc : KeyMapDesc) (tabs_1 tabs_2 : String) : String :=
  match i with
  | 0 => desc.key ++ tabs_1 ++ desc.cmd ++ tabs_2 ++ desc.desc
  | 1 => desc.key ++ tabs_1 ++ desc.cmd ++ tabs_2 ++ desc.desc
  | 2 => desc.cmd ++ tabs_1 ++ tabs_2 ++ desc.desc
  | _ => ""

/-- The local `highlighted_searchphrase` (lines 77-78). -/
def highlighted_searchphrase (self : HelpFormAction) : String :=
  "<hl>" ++ self.searchphrase ++ "</>"

/-- Escaping and highlighting of a formatted line (lines 162-178). -/
def decorate (ext : Externals) (self : HelpFormAction) (line : String) : String :=
  let line := ext.quote_for_stfl line
  if self.apply_search && decide (self.searchphrase.length > 0) then
    replace_all line self.searchphrase (highlighted_searchphrase self)
  else line

/-- The text of `line` at line 161 for a record rendered in pass `i`: both buffers are cut
(lines 123-135), then the columns are joined (lines 136-156). -/
def plain_line (i : Nat) (desc : KeyMapDesc) : Option String :=
  match terminate_at 16 (how_often 16 desc.key.length),
        terminate_at 24 (how_often 24 desc.cmd.length) with
  | some tabs_1, some tabs_2 => some (format_line i desc tabs_1 tabs_2)
  | _, _ => none

/-- The line added for a record that is rendered in pass `i` (lines 123-179). -/
def render (ext : Externals) (self : HelpFormAction) (i : Nat) (desc : KeyMapDesc) :
    Option String :=
  (plain_line i desc).map (decorate ext self)

/-- Body of the inner loop for one record (lines 89-180). -/
def visit (ext : Externals) (self : HelpFormAction) (i : Nat) (st : PrepareState)
    (desc : KeyMapDesc) : Option PrepareState :=
  let st := count ext i st desc
  if skipped ext self i desc then some st
  else if search_matches self desc then
    match render ext self i desc with
    | some line => some ⟨st.unbound_count, st.syskey_count, st.listfmt.add_line line⟩
    | none => none
  else some st

/-- The inner loop `for (const auto& desc : descs)` of pass `i` (lines 88-181). -/
def for_descs (ext : Externals) (self : HelpFormAction) (i : Nat) :
    PrepareState → List KeyMapDesc → Option PrepareState
  | st, [] => some st
  | st, desc :: rest =>
    match visit ext self i st desc with
    | some st1 => for_descs ext self i st1 rest
    | none => none

/-- The three lines of a header block. -/
def add_header (listfmt : ListFormatter) (title : String) : ListFormatter :=
  ((listfmt.add_line "").add_line title).add_line ""

/-- The `switch` after the inner loop (lines 182-199). -/
def after_pass (i : Nat) (st : PrepareState) : PrepareState :=
  match i with
  | 0 =>
    if st.syskey_count > 0 then
      ⟨st.unbound_count, st.syskey_count, add_header st.listfmt (gettext "Generic bindings:")⟩
    else st
  | 1 =>
    if st.unbound_count > 0 then
      ⟨st.unbound_count, st.syskey_count, add_header st.listfmt (gettext "Unbound functions:")⟩
    else st
  | _ => st

/-- One iteration of the outer loop (lines 87-200). -/
def pass (ext : Externals) (self : HelpFormAction) (descs : List KeyMapDesc) (i : Nat)
    (st : PrepareState) : Option PrepareState :=
  match for_descs ext self i st descs with
  | some st1 => some (after_pass i st1)
  | none => none

/-- `HelpFormAction::prepare` when `do_redraw` is set: the lines handed to the list formatter
(lines 82-202), for the key map descriptions `descs`. -/
def prepare (ext : Externals) (self : HelpFormAction) (descs : List KeyMapDesc) :
    Option (List String) :=
  match pass ext self descs 0 ⟨0, 0, ⟨[]⟩⟩ with
  | none => none
  | some st0 =>
    match pass ext self descs 1 st0 with
    | none => none
    | some st1 =>
      match pass ext self descs 2 st1 with
      | none => none
      | some st2 => some st2.listfmt.lines

/-- The record lines pass `i` adds, one after the other, started on an empty formatter. -/
def pass_lines (ext : Externals) (self : HelpFormAction) (i : Nat) (descs : List KeyMapDesc) :
    Option (List String) :=
  (for_descs ext self i ⟨0, 0, ⟨[]⟩⟩ descs).map (fun st => st.listfmt.lines)

/-- Modelled from the spec: `utils::quote_for_stfl` (utils.cpp is not under src/), the escaping step
for the markup of the rendering library, in which `<` opens a directive and `<>` stands for a
literal `<`. -/
def stfl_quote (s : String) : String :=
  String.mk (s.data.flatMap (fun c => if c = '<' then ['<', '>'] else [c]))

/-- A choice of the collaborators: bit 12 for `KM_SYSKEYS`, `stfl_quote` for escaping. -/
def externals : Externals := ⟨4096, stfl_quote⟩

/-! ## The listing as the specification words it -/

/-- Column padding as specified: `width - length` spaces while the field is shorter than the
column, a single space otherwise. -/
def padding (width length : Nat) : String :=
  String.mk (List.replicate (if length < width then width - length else 1) ' ')

/-- The unescaped line of a record in pass `i`, with the specified padding. -/
def padded_line (i : Nat) (desc : KeyMapDesc) : String :=
  format_line i desc (padding 16 desc.key.length) (padding 24 desc.cmd.length)

/-- Whether a record yields a line in pass `i`: it is not skipped and the search test holds. -/
def is_rendered (ext : Externals) (self : HelpFormAction) (i : Nat) (desc : KeyMapDesc) : Bool :=
  !(skipped ext self i desc) && search_matches self desc

/-- The record lines of pass `i`: the rendered records in input order, each escaped and
highlighted. -/
def record_lines (ext : Externals) (self : HelpFormAction) (i : Nat) (descs : List KeyMapDesc) :
    List String :=
  (descs.filter (is_rendered ext self i)).map (fun desc => decorate ext self (padded_line i desc))

/-- A header block: blank line, title, blank line; present only when `present` holds. -/
def header_block (present : Bool) (title : String) : List String :=
  if present then ["", title, ""] else []

/-- What the scan of `strcasestr` looks for: a substring of the text that equals the needle once
both have gone through `tolower`. -/
def occurs_folded (text needle : List Char) : Prop :=
  ∃ before found after, text = before ++ found ++ after ∧
    found.map tolower = needle.map tolower

/-- Two bytes are the same letter when case is ignored: they are equal, or one is an ASCII capital
letter `A`..`Z` (65..90) and the other the small letter 32 places above it. Stated on the byte
values, without `tolower`. -/
def same_ignoring_case (a b : Char) : Bool :=
  a == b ||
    (decide (65 ≤ a.toNat) && decide (a.toNat ≤ 90) && b.toNat == a.toNat + 32) ||
    (decide (65 ≤ b.toNat) && decide (b.toNat ≤ 90) && a.toNat == b.toNat + 32)

/-- Two strings are equal when case is ignored: same length, and byte by byte the same letter. -/
def equal_ignoring_case : List Char → List Char → Bool
  | [], [] => true
  | a :: as, b :: bs => same_ignoring_case a b && equal_ignoring_case as bs
  | _, _ => false

/-- A phrase is a case-insensitive substring of a text: some substring of the text equals the
phrase when case is ignored. -/
def contains_nocase (text phrase : List Char) : Prop :=
  ∃ before found after, text = before ++ found ++ after ∧
    equal_ignoring_case found phrase = true

/-- The record has lengths for which the padding arithmetic of `prepare` is defined. -/
def short_fields (desc : KeyMapDesc) : Prop :=
  desc.key.length < 2 ^ 31 ∧ desc.cmd.length < 2 ^ 31

/-- Field lengths are compared by computation. -/
instance short_fields_decidable (desc : KeyMapDesc) : Decidable (short_fields desc) := by
  unfold short_fields
  infer_instance

/-! ## Text view scrolling -/

/-- Modelled from the spec: the ScrollController (`TextviewWidget`; textviewwidget.cpp is not under
src/, only its test is): the number of lines of the displayed content and the zero-based index of
the first visible line. The viewport height is not stored, it is read at every call. -/
structure TextviewWidget where
  num_lines : Nat
  scroll_offset : Nat
deriving DecidableEq, Repr

namespace TextviewWidget

/-- Modelled from the spec: a widget is created with offset 0; it shows no lines yet. -/
def create : TextviewWidget := ⟨0, 0⟩

/-- Modelled from the spec: `max_offset = max(0, line_count − viewport_height + 1)`, the offset
`scroll_to_bottom` moves to (test/textviewwidget.cpp:111-116: 10 lines, height 5, offset 6). -/
def max_offset (num_lines height : Nat) : Nat :=
  num_lines + 1 - height

/-- Modelled from the spec: the bound the offset is clamped to when content shrinks or a page is
scrolled down. The repository's tests pin it to the index of the last line, `line_count − 1`
(test/textviewwidget.cpp:42-49 and 129-138, "clamped at max_offset = 9" for 10 lines), and to 0 for
empty content. -/
def last_line (num_lines : Nat) : Nat :=
  num_lines - 1

/-- Modelled from the spec: `get_offset()`. -/
def get_scroll_offset (w : TextviewWidget) : Nat :=
  w.scroll_offset

/-- Modelled from the spec: `set_offset(n)`, absolute positioning that clamps `n` into the range
of line indices. -/
def set_scroll_offset (w : TextviewWidget) (n : Int) : TextviewWidget :=
  if n < 0 then ⟨w.num_lines, 0⟩
  else if n.toNat > last_line w.num_lines then ⟨w.num_lines, last_line w.num_lines⟩
  else ⟨w.num_lines, n.toNat⟩

/-- Modelled from the spec: `notify_content_changed()` at a content replacement
(`stfl_replace_lines`): with no lines left the offset resets to 0, otherwise it is only clamped
downward when it exceeds the bound, never pushed upward. -/
def stfl_replace_lines (w : TextviewWidget) (number_of_lines : Nat) : TextviewWidget :=
  if number_of_lines = 0 then ⟨0, 0⟩
  else if w.scroll_offset > last_line number_of_lines then
    ⟨number_of_lines, last_line number_of_lines⟩
  else ⟨number_of_lines, w.scroll_offset⟩

/-- Modelled from the spec: `scroll_up()`, `offset = max(0, offset − 1)`. -/
def scroll_up (w : TextviewWidget) : TextviewWidget :=
  if w.scroll_offset > 0 then ⟨w.num_lines, w.scroll_offset - 1⟩ else ⟨w.num_lines, 0⟩

/-- Modelled from the spec: `scroll_down()`, `offset = min(bound, offset + 1)`. -/
def scroll_down (w : TextviewWidget) : TextviewWidget :=
  if w.scroll_offset + 1 < last_line w.num_lines then ⟨w.num_lines, w.scroll_offset + 1⟩
  else ⟨w.num_lines, last_line w.num_lines⟩

/-- Modelled from the spec: `scroll_to_top()`, `offset = 0`. -/
def scroll_to_top (w : TextviewWidget) : TextviewWidget :=
  ⟨w.num_lines, 0⟩

/-- Modelled from the spec: `scroll_to_bottom()`, `offset = max_offset`. -/
def scroll_to_bottom (w : TextviewWidget) (height : Nat) : TextviewWidget :=
  ⟨w.num_lines, max_offset w.num_lines height⟩

/-- Modelled from the spec: `scroll_page_up()` moves up by `viewport_height − 1` lines, clamped
to 0. -/
def scroll_page_up (w : TextviewWidget) (height : Nat) : TextviewWidget :=
  if w.scroll_offset ≥ height - 1 then ⟨w.num_lines, w.scroll_offset - (height - 1)⟩
  else ⟨w.num_lines, 0⟩

/-- Modelled from the spec: `scroll_page_down()` moves down by `viewport_height − 1` lines, clamped
to the bound. -/
def scroll_page_down (w : TextviewWidget) (height : Nat) : TextviewWidget :=
  if w.scroll_offset + (height - 1) < last_line w.num_lines then
    ⟨w.num_lines, w.scroll_offset + (height - 1)⟩
  else ⟨w.num_lines, last_line w.num_lines⟩

/-- The operations of the scroll controller. -/
inductive Operation where
  | replace_lines (number_of_lines : Nat)
  | set_offset (n : Int)
  | up
  | down
  | page_up
  | page_down
  | top
  | bottom
deriving DecidableEq, Repr

/-- One operation, carried out while the host reports the viewport height `height`. -/
def apply (height : Nat) (w : TextviewWidget) : Operation → TextviewWidget
  | .replace_lines n => w.stfl_replace_lines n
  | .set_offset n => w.set_scroll_offset n
  | .up => w.scroll_up
  | .down => w.scroll_down
  | .page_up => w.scroll_page_up height
  | .page_down => w.scroll_page_down height
  | .top => w.scroll_to_top
  | .bottom => w.scroll_to_bottom height

/-- A history of operations, each with the viewport height reported at that moment. -/
def run (w : TextviewWidget) : List (Nat × Operation) → TextviewWidget
  | [] => w
  | (height, op) :: rest => run (apply height w op) rest

end TextviewWidget

/-! ## Operations on the help form -/

/-- The constructor of `HelpFormAction` (lines 16-23): search is off, the strings are empty. -/
def HelpFormAction.create : HelpFormAction := ⟨"", "", false⟩

/-- The values of `Operation` (keymap.h, not under src/) that `process_operation` and
`finished_qna` tell apart; `OP_NIL` stands for every operation that falls to `default`. -/
inductive Operation where
  | OP_QUIT
  | OP_HARDQUIT
  | OP_SEARCH
  | OP_CLEARFILTER
  | OP_INT_START_SEARCH
  | OP_NIL
deriving DecidableEq, Repr

/-- `HelpFormAction::process_operation` (lines 27-58) on the fields `prepare` reads: only
`OP_CLEARFILTER` touches them, it clears `apply_search` and leaves `searchphrase` as it is. -/
def process_operation (self : HelpFormAction) (op : Operation) : HelpFormAction :=
  match op with
  | .OP_CLEARFILTER => ⟨self.context, self.searchphrase, false⟩
  | _ => self

/-- `HelpFormAction::finished_qna` (lines 223-235): on `OP_INT_START_SEARCH` the first answer,
`response`, becomes the stored phrase and search is switched on. -/
def finished_qna (self : HelpFormAction) (op : Operation) (response : String) : HelpFormAction :=
  match op with
  | .OP_INT_START_SEARCH => ⟨self.context, response, true⟩
  | _ => self

/-! ## `HelpFormAction::make_colorstring` -/

/-- The guarded `result.append(",")` (lines 261-262 and 268-269). -/
def append_separator (result : String) : String :=
  if result.length > 0 then result ++ "," else result

/-- The loop `for (unsigned int i = 2; i < colors.size(); i++)` (lines 267-272), entered with
counter `i` and `result`; `fuel` bounds the number of iterations and `none` is a loop that is
still running when the fuel is spent. -/
def attr_loop (colors : List String) : Nat → Nat → String → Option String
  | 0, i, result => if i < colors.length then none else some result
  | fuel + 1, i, result =>
    if i < colors.length then
      attr_loop colors fuel ((i + 1) % 2 ^ 32)
        (append_separator result ++ "attr=" ++ colors.getD i "")
    else some result

/-- `HelpFormAction::make_colorstring` (lines 250-275), the loop run with `fuel`. -/
def make_colorstring (fuel : Nat) (colors : List String) : Option String :=
  if colors.length > 0 then
    let fg := if colors.getD 0 "" != "default" then "" ++ "fg=" ++ colors.getD 0 "" else ""
    let bg :=
      if colors.length > 1 then
        if colors.getD 1 "" != "default" then append_separator fg ++ "bg=" ++ colors.getD 1 ""
        else fg
      else fg
    attr_loop colors fuel 2 bg
  else some ""

/-- Strings joined by single commas. -/
def join_commas : List String → String
  | [] => ""
  | [s] => s
  | s :: t :: rest => s ++ "," ++ join_commas (t :: rest)

/-- The components of a colour string as the claim lists them: foreground, background, then one
attribute per further token. -/
def color_components (colors : List String) : List String :=
  (match colors.head? with
    | some fg => if fg ≠ "default" then ["fg=" ++ fg] else []
    | none => []) ++
  (match colors.tail.head? with
    | some bg => if bg ≠ "default" then ["bg=" ++ bg] else []
    | none => []) ++
  (colors.drop 2).map (fun attr => "attr=" ++ attr)

/-! ## Padding arithmetic -/

theorem how_often_of_short (width length : Nat) (hw : width < 2 ^ 31) (hl : length < 2 ^ 31) :
    how_often width length = if length < width then ((width - length : Nat) : Int) else 1 := by
  unfold how_often to_int
  simp only []
  have h64 : length % 2 ^ 64 = length := Nat.mod_eq_of_lt (by omega)
  rw [h64]
  by_cases hlt : length < width
  · have h1 : (width + 2 ^ 64 - length) % 2 ^ 64 = width - length := by omega
    rw [h1]
    have h2 : (width - length) % 2 ^ 32 = width - length := Nat.mod_eq_of_lt (by omega)
    rw [h2]
    simp only [hlt, if_true]
    have h3 : width - length < 2 ^ 31 := by omega
    simp only [h3, if_true]
    have h4 : ¬ (((width - length : Nat) : Int) ≤ 0) := by omega
    simp only [h4, if_false]
  · simp only [hlt, if_false]
    by_cases heq : length = width
    · subst heq
      have h1 : (length + 2 ^ 64 - length) % 2 ^ 64 = 0 := by omega
      rw [h1]
      simp
    · have h1 : (width + 2 ^ 64 - length) % 2 ^ 64 = width + 2 ^ 64 - length := by omega
      rw [h1]
      have h2 : (width + 2 ^ 64 - length) % 2 ^ 32 = 2 ^ 32 - (length - width) := by omega
      rw [h2]
      have h3 : ¬ (2 ^ 32 - (length - width) < 2 ^ 31) := by omega
      simp only [h3, if_false]
      have h4 : (((2 ^ 32 - (length - width) : Nat) : Int) - 2 ^ 32 ≤ 0) := by omega
      simp only [h4, if_true]

theorem terminate_at_how_often (width length : Nat) (hw : 0 < width) (hw2 : width < 2 ^ 31)
    (hl : length < 2 ^ 31) :
    terminate_at width (how_often width length) = some (padding width length) := by
  rw [how_often_of_short width length hw2 hl]
  unfold terminate_at padding
  by_cases hlt : length < width
  · simp only [hlt, if_true]
    have : (0 : Int) ≤ ((width - length : Nat) : Int) ∧ ((width - length : Nat) : Int) ≤ (width : Int) := by
      omega
    simp only [this, and_self, if_true, Int.toNat_ofNat]
  · simp only [hlt, if_false]
    have : (0 : Int) ≤ 1 ∧ (1 : Int) ≤ (width : Int) := by omega
    simp only [this, and_self, if_true]
    rfl

theorem plain_line_of_short (i : Nat) (desc : KeyMapDesc) (h : short_fields desc) :
    plain_line i desc = some (padded_line i desc) := by
  unfold plain_line padded_line
  rw [terminate_at_how_often 16 desc.key.length (by decide) (by decide) h.1,
    terminate_at_how_often 24 desc.cmd.length (by decide) (by decide) h.2]

/-! ## The loops of `prepare` -/

theorem count_listfmt (ext : Externals) (i : Nat) (st : PrepareState) (desc : KeyMapDesc) :
    (count ext i st desc).listfmt = st.listfmt := by
  unfold count
  split <;> rfl

theorem count_eta (ext : Externals) (i : Nat) (st : PrepareState) (desc : KeyMapDesc) :
    count ext i st desc =
      ⟨(count ext i st desc).unbound_count, (count ext i st desc).syskey_count,
        ⟨st.listfmt.lines⟩⟩ := by
  have h := count_listfmt ext i st desc
  cases hc : count ext i st desc with
  | mk u s l =>
    rw [hc] at h
    simp only at h
    subst h
    rfl

theorem foldl_count_congr (ext : Externals) (i : Nat) (descs : List KeyMapDesc)
    (a b : PrepareState) (h1 : a.unbound_count = b.unbound_count)
    (h2 : a.syskey_count = b.syskey_count) :
    (descs.foldl (count ext i) a).unbound_count = (descs.foldl (count ext i) b).unbound_count ∧
    (descs.foldl (count ext i) a).syskey_count = (descs.foldl (count ext i) b).syskey_count := by
  induction descs generalizing a b with
  | nil => exact ⟨h1, h2⟩
  | cons d ds ih =>
    simp only [List.foldl_cons]
    apply ih
    · unfold count; split <;> simp [h1, h2]
    · unfold count; split <;> simp [h1, h2]

theorem visit_of_short (ext : Externals) (self : HelpFormAction) (i : Nat) (st : PrepareState)
    (desc : KeyMapDesc) (h : short_fields desc) :
    visit ext self i st desc =
      some ⟨(count ext i st desc).unbound_count, (count ext i st desc).syskey_count,
        ⟨st.listfmt.lines ++
          (if is_rendered ext self i desc then [decorate ext self (padded_line i desc)]
            else [])⟩⟩ := by
  unfold visit is_rendered render
  simp only [plain_line_of_short i desc h, Option.map_some', ListFormatter.add_line,
    count_listfmt]
  by_cases hs : skipped ext self i desc = true
  · simp only [hs, if_true, Bool.not_true, Bool.false_and, Bool.false_eq_true, if_false,
      List.append_nil]
    exact congrArg some (count_eta ext i st desc)
  · by_cases hm : search_matches self desc = true
    · simp [hs, hm]
    · simp only [hs, hm, if_false, Bool.and_false, Bool.false_eq_true, List.append_nil]
      exact congrArg some (count_eta ext i st desc)

theorem for_descs_of_short (ext : Externals) (self : HelpFormAction) (i : Nat)
    (descs : List KeyMapDesc) (h : ∀ desc ∈ descs, short_fields desc) (st : PrepareState) :
    for_descs ext self i st descs =
      some ⟨(descs.foldl (count ext i) st).unbound_count,
        (descs.foldl (count ext i) st).syskey_count,
        ⟨st.listfmt.lines ++ record_lines ext self i descs⟩⟩ := by
  induction descs generalizing st with
  | nil => simp [for_descs, record_lines]
  | cons desc rest ih =>
    have hd : short_fields desc := h desc (List.mem_cons_self _ _)
    have hr : ∀ d ∈ rest, short_fields d := fun d hmem => h d (List.mem_cons_of_mem _ hmem)
    simp only [for_descs, visit_of_short ext self i st desc hd, ih hr, List.foldl_cons]
    obtain ⟨e1, e2⟩ := foldl_count_congr ext i rest
      ⟨(count ext i st desc).unbound_count, (count ext i st desc).syskey_count,
        ⟨st.listfmt.lines ++
          (if is_rendered ext self i desc then [decorate ext self (padded_line i desc)]
            else [])⟩⟩ (count ext i st desc) rfl rfl
    rw [e1, e2]
    congr 3
    unfold record_lines
    by_cases hren : is_rendered ext self i desc = true
    · simp [hren, List.filter_cons]
    · simp [hren, List.filter_cons]

theorem foldl_count_pass0 (ext : Externals) (descs : List KeyMapDesc) (st : PrepareState)
    (hu : st.unbound_count < 2 ^ 32) (hs : st.syskey_count < 2 ^ 32) :
    (descs.foldl (count ext 0) st).unbound_count =
        (st.unbound_count + descs.countP (fun d => d.key.length == 0)) % 2 ^ 32 ∧
    (descs.foldl (count ext 0) st).syskey_count =
        (st.syskey_count + descs.countP (is_syskey ext)) % 2 ^ 32 := by
  induction descs generalizing st with
  | nil =>
    simp only [List.foldl_nil, List.countP_nil, Nat.add_zero]
    exact ⟨(Nat.mod_eq_of_lt hu).symm, (Nat.mod_eq_of_lt hs).symm⟩
  | cons d ds ih =>
    simp only [List.foldl_cons]
    have hu1 : (count ext 0 st d).unbound_count < 2 ^ 32 := by
      unfold count incr_u32
      simp only [if_true]
      split
      · exact Nat.mod_lt _ (by decide)
      · exact hu
    have hs1 : (count ext 0 st d).syskey_count < 2 ^ 32 := by
      unfold count incr_u32
      simp only [if_true]
      split
      · exact Nat.mod_lt _ (by decide)
      · exact hs
    obtain ⟨e1, e2⟩ := ih (count ext 0 st d) hu1 hs1
    rw [e1, e2]
    constructor
    · unfold count incr_u32
      simp only [if_true, List.countP_cons]
      by_cases hk : (d.key.length == 0) = true
      · simp only [hk, if_true]; omega
      · simp only [hk, if_false]; rfl
    · unfold count incr_u32
      simp only [if_true, List.countP_cons]
      by_cases hk : is_syskey ext d = true
      · simp only [hk, if_true]; omega
      · simp only [hk, if_false]; rfl

theorem foldl_count_later (ext : Externals) (i : Nat) (hi : i ≠ 0) (descs : List KeyMapDesc)
    (st : PrepareState) : descs.foldl (count ext i) st = st := by
  induction descs generalizing st with
  | nil => rfl
  | cons d ds ih =>
    simp only [List.foldl_cons]
    have : count ext i st d = st := by unfold count; simp [hi]
    rw [this, ih]

theorem countP_mod_pos (p : KeyMapDesc → Bool) (descs : List KeyMapDesc)
    (hlen : descs.length < 2 ^ 32) :
    (0 + descs.countP p) % 2 ^ 32 > 0 ↔ descs.any p = true := by
  have hle : descs.countP p ≤ descs.length := List.countP_le_length p
  have hmod : (0 + descs.countP p) % 2 ^ 32 = descs.countP p := by
    rw [Nat.zero_add]; exact Nat.mod_eq_of_lt (by omega)
  rw [hmod, List.any_eq_true]
  exact List.countP_pos_iff

theorem after_pass_zero (u s : Nat) (ls : List String) :
    after_pass 0 ⟨u, s, ⟨ls⟩⟩ =
      ⟨u, s, ⟨ls ++ header_block (decide (s > 0)) "Generic bindings:"⟩⟩ := by
  unfold after_pass header_block add_header ListFormatter.add_line gettext
  by_cases h : s > 0 <;> simp [h]

theorem after_pass_one (u s : Nat) (ls : List String) :
    after_pass 1 ⟨u, s, ⟨ls⟩⟩ =
      ⟨u, s, ⟨ls ++ header_block (decide (u > 0)) "Unbound functions:"⟩⟩ := by
  unfold after_pass header_block add_header ListFormatter.add_line gettext
  by_cases h : u > 0 <;> simp [h]

theorem prepare_of_short (ext : Externals) (self : HelpFormAction) (descs : List KeyMapDesc)
    (hshort : ∀ desc ∈ descs, short_fields desc) (hlen : descs.length < 2 ^ 32) :
    prepare ext self descs =
      some (record_lines ext self 0 descs ++
        header_block (descs.any (is_syskey ext)) "Generic bindings:" ++
        record_lines ext self 1 descs ++
        header_block (descs.any (fun d => d.key.length == 0)) "Unbound functions:" ++
        record_lines ext self 2 descs) := by
  obtain ⟨cu, cs⟩ := foldl_count_pass0 ext descs ⟨0, 0, ⟨[]⟩⟩ (by decide) (by decide)
  have hs : decide ((0 + descs.countP (is_syskey ext)) % 2 ^ 32 > 0) =
      descs.any (is_syskey ext) := by
    rw [Bool.eq_iff_iff, decide_eq_true_iff]
    exact countP_mod_pos (is_syskey ext) descs hlen
  have hu : decide ((0 + descs.countP (fun d => d.key.length == 0)) % 2 ^ 32 > 0) =
      descs.any (fun d => d.key.length == 0) := by
    rw [Bool.eq_iff_iff, decide_eq_true_iff]
    exact countP_mod_pos (fun d => d.key.length == 0) descs hlen
  simp only at cu cs
  unfold prepare pass
  simp only [for_descs_of_short ext self _ descs hshort, cu, cs, after_pass_zero, hs,
    foldl_count_later ext 1 (by decide), foldl_count_later ext 2 (by decide), after_pass_one, hu,
    List.nil_append]
  rfl

/-! ## Searching without regard to case -/

theorem starts_with_nocase_iff (needle text : List Char) :
    starts_with_nocase text needle = true ↔
      ∃ found rest, text = found ++ rest ∧ found.map tolower = needle.map tolower := by
  induction needle generalizing text with
  | nil =>
    constructor
    · intro _
      exact ⟨[], text, rfl, rfl⟩
    · intro _
      cases text <;> rfl
  | cons p ps ih =>
    cases text with
    | nil =>
      constructor
      · intro h
        simp [starts_with_nocase] at h
      · rintro ⟨found, rest, hsplit, hmap⟩
        have hnil : found = [] := (List.append_eq_nil.mp hsplit.symm).1
        subst hnil
        simp at hmap
    | cons t ts =>
      simp only [starts_with_nocase, Bool.and_eq_true, beq_iff_eq, ih ts]
      constructor
      · rintro ⟨ht, found, rest, hsplit, hmap⟩
        refine ⟨t :: found, rest, ?_, ?_⟩
        · simp [hsplit]
        · simp [ht, hmap]
      · rintro ⟨found, rest, hsplit, hmap⟩
        cases found with
        | nil => simp at hmap
        | cons f fs =>
          simp only [List.cons_append, List.cons.injEq] at hsplit
          simp only [List.map_cons, List.cons.injEq] at hmap
          obtain ⟨h1, h2⟩ := hsplit
          subst h1
          exact ⟨hmap.1, fs, rest, h2, hmap.2⟩

theorem strcasestr_from_isSome (needle haystack : List Char) (k : Nat) :
    (strcasestr_from needle haystack k).isSome = true ↔ occurs_folded haystack needle := by
  induction haystack generalizing k with
  | nil =>
    unfold strcasestr_from occurs_folded
    constructor
    · intro h
      have hn : needle = [] := by
        cases needle with
        | nil => rfl
        | cons a as => simp at h
      exact ⟨[], [], [], rfl, by rw [hn]⟩
    · rintro ⟨before, found, after, hsplit, hmap⟩
      have hf : found = [] := by
        have := List.append_eq_nil.mp hsplit.symm
        exact (List.append_eq_nil.mp this.1).2
      subst hf
      cases needle with
      | nil => simp
      | cons a as => simp at hmap
  | cons c cs ih =>
    unfold strcasestr_from
    by_cases hs : starts_with_nocase (c :: cs) needle = true
    · simp only [hs, if_true, Option.isSome_some, true_iff]
      obtain ⟨found, rest, hsplit, hmap⟩ := (starts_with_nocase_iff needle (c :: cs)).mp hs
      exact ⟨[], found, rest, by simpa using hsplit, hmap⟩
    · have hs2 : starts_with_nocase (c :: cs) needle = false := by simpa using hs
      rw [hs2]
      simp only [Bool.false_eq_true, if_false]
      rw [ih (k + 1)]
      unfold occurs_folded
      constructor
      · rintro ⟨before, found, after, hsplit, hmap⟩
        exact ⟨c :: before, found, after, by simp [hsplit], hmap⟩
      · rintro ⟨before, found, after, hsplit, hmap⟩
        cases before with
        | nil =>
          exfalso
          apply hs
          exact (starts_with_nocase_iff needle (c :: cs)).mpr
            ⟨found, after, by simpa using hsplit, hmap⟩
        | cons b bs =>
          simp only [List.cons_append, List.cons.injEq] at hsplit
          exact ⟨bs, found, after, by simpa using hsplit.2, hmap⟩

theorem strcasestr_isSome (haystack needle : List Char) :
    (strcasestr haystack needle).isSome = true ↔ occurs_folded haystack needle :=
  strcasestr_from_isSome needle haystack 0

theorem toNat_ofNat_letter (n : Nat) (h1 : 65 ≤ n) (h2 : n ≤ 90) :
    (Char.ofNat (n + 32)).toNat = n + 32 := by
  interval_cases n <;> rfl

theorem char_eq_iff_toNat (a b : Char) : a = b ↔ a.toNat = b.toNat := by
  constructor
  · intro h
    rw [h]
  · intro h
    rw [← Char.ofNat_toNat a, ← Char.ofNat_toNat b, h]

theorem tolower_toNat (a : Char) :
    (tolower a).toNat = if 65 ≤ a.toNat ∧ a.toNat ≤ 90 then a.toNat + 32 else a.toNat := by
  unfold tolower
  by_cases h : 65 ≤ a.toNat ∧ a.toNat ≤ 90
  · rw [if_pos h, if_pos h]
    exact toNat_ofNat_letter a.toNat h.1 h.2
  · rw [if_neg h, if_neg h]

theorem tolower_eq_iff (a b : Char) :
    tolower a = tolower b ↔ same_ignoring_case a b = true := by
  rw [char_eq_iff_toNat, tolower_toNat, tolower_toNat]
  unfold same_ignoring_case
  simp only [Bool.or_eq_true, Bool.and_eq_true, beq_iff_eq, decide_eq_true_eq,
    char_eq_iff_toNat a b]
  split <;> split <;> omega

theorem map_tolower_eq_iff (found phrase : List Char) :
    found.map tolower = phrase.map tolower ↔ equal_ignoring_case found phrase = true := by
  induction found generalizing phrase with
  | nil =>
    cases phrase with
    | nil => simp [equal_ignoring_case]
    | cons b bs => simp [equal_ignoring_case]
  | cons a as ih =>
    cases phrase with
    | nil => simp [equal_ignoring_case]
    | cons b bs =>
      simp only [List.map_cons, List.cons.injEq, equal_ignoring_case, Bool.and_eq_true,
        tolower_eq_iff, ih bs]

theorem occurs_folded_iff (text phrase : List Char) :
    occurs_folded text phrase ↔ contains_nocase text phrase := by
  unfold occurs_folded contains_nocase
  simp only [map_tolower_eq_iff]

theorem search_matches_iff (self : HelpFormAction) (desc : KeyMapDesc) :
    search_matches self desc = true ↔
      (self.apply_search = false ∨
        contains_nocase (c_str desc.key) (c_str self.searchphrase) ∨
        contains_nocase (c_str desc.cmd) (c_str self.searchphrase) ∨
        contains_nocase (c_str desc.desc) (c_str self.searchphrase)) := by
  unfold search_matches
  simp only [Bool.or_eq_true, Bool.not_eq_true', strcasestr_isSome, occurs_folded_iff]
  tauto

/-! ## Runs that agree record by record -/

theorem for_descs_congr (ext : Externals) (a b : HelpFormAction)
    (h : ∀ i st desc, visit ext a i st desc = visit ext b i st desc) (i : Nat)
    (descs : List KeyMapDesc) (st : PrepareState) :
    for_descs ext a i st descs = for_descs ext b i st descs := by
  induction descs generalizing st with
  | nil => rfl
  | cons d ds ih =>
    simp only [for_descs, h i st d]
    cases visit ext b i st d with
    | none => rfl
    | some st1 => exact ih st1

theorem prepare_congr (ext : Externals) (a b : HelpFormAction)
    (h : ∀ i st desc, visit ext a i st desc = visit ext b i st desc)
    (descs : List KeyMapDesc) : prepare ext a descs = prepare ext b descs := by
  unfold prepare pass
  simp only [for_descs_congr ext a b h]

theorem strcasestr_empty_needle (haystack : List Char) :
    (strcasestr haystack []).isSome = true := by
  rw [strcasestr_isSome]
  exact ⟨[], [], haystack, rfl, rfl⟩

theorem visit_empty_phrase (ext : Externals) (self : HelpFormAction)
    (hempty : self.searchphrase = "") (i : Nat) (st : PrepareState) (desc : KeyMapDesc) :
    visit ext self i st desc =
      visit ext ⟨self.context, self.searchphrase, false⟩ i st desc := by
  have hc : c_str self.searchphrase = [] := by rw [hempty]; rfl
  have hm1 : search_matches self desc = true := by
    unfold search_matches
    rw [hc]
    simp [strcasestr_empty_needle]
  have hm2 : search_matches ⟨self.context, self.searchphrase, false⟩ desc = true := by
    unfold search_matches
    simp
  have hd : ∀ line, decorate ext self line =
      decorate ext ⟨self.context, self.searchphrase, false⟩ line := by
    intro line
    unfold decorate
    simp [hempty]
  have hr : render ext self i desc = render ext ⟨self.context, self.searchphrase, false⟩ i desc := by
    unfold render
    cases plain_line i desc with
    | none => rfl
    | some l => simp [hd]
  unfold visit
  rw [hm1, hm2, hr]
  rfl

/-! ## Claims on `HelpFormAction::prepare` -/

/-- C1, refuted as stated: with the context filter "feedlist" and search inactive, a record of
that context with empty key text satisfies the condition of pass 0 and produces no line there,
while a record of that context with key "q" and no system flag fails the condition of pass 0 and
does produce a line there. -/
theorem prepare_condition_inclusion_counterexample :
    ((⟨"", "open", "Open", "feedlist", 0⟩ : KeyMapDesc).ctx =
        (⟨"feedlist", "", false⟩ : HelpFormAction).context ∧
      condition externals 0 ⟨"", "open", "Open", "feedlist", 0⟩ = true ∧
      visit externals ⟨"feedlist", "", false⟩ 0 ⟨0, 0, ⟨[]⟩⟩ ⟨"", "open", "Open", "feedlist", 0⟩ =
        some ⟨1, 0, ⟨[]⟩⟩) ∧
    ((⟨"q", "quit", "Quit", "feedlist", 0⟩ : KeyMapDesc).ctx =
        (⟨"feedlist", "", false⟩ : HelpFormAction).context ∧
      condition externals 0 ⟨"q", "quit", "Quit", "feedlist", 0⟩ = false ∧
      visit externals ⟨"feedlist", "", false⟩ 0 ⟨0, 0, ⟨[]⟩⟩ ⟨"q", "quit", "Quit", "feedlist", 0⟩ =
        some ⟨0, 0, ⟨["q               quit                    Quit"]⟩⟩) := by
  decide

/-- C1 (amended): with a non-empty context filter and search inactive, the loop body of pass `i`
adds one line for a record, its escaped padded line, exactly when the record's context equals the
filter and the pass's `condition` is false for it; otherwise it adds no line. The condition of a
pass excludes: pass 0 leaves out records with empty key text or the system flag, pass 1 records
without the system flag, pass 2 records with key text or the system flag. -/
theorem prepare_context_filter_renders_iff_not_condition (ext : Externals)
    (self : HelpFormAction) (i : Nat) (st : PrepareState) (desc : KeyMapDesc)
    (hctx : self.context.length > 0) (hsearch : self.apply_search = false)
    (hshort : short_fields desc) :
    (∃ st1, visit ext self i st desc = some st1 ∧
      ((desc.ctx = self.context ∧ condition ext i desc = false) →
        st1.listfmt.lines = st.listfmt.lines ++ [ext.quote_for_stfl (padded_line i desc)]) ∧
      (¬(desc.ctx = self.context ∧ condition ext i desc = false) →
        st1.listfmt.lines = st.listfmt.lines)) ∧
    (condition ext 0 desc = true ↔ (desc.key.length = 0 ∨ is_syskey ext desc = true)) ∧
    (condition ext 1 desc = true ↔ is_syskey ext desc = false) ∧
    (condition ext 2 desc = true ↔ (desc.key.length > 0 ∨ is_syskey ext desc = true)) := by
  refine ⟨⟨_, visit_of_short ext self i st desc hshort, ?_, ?_⟩, ?_, ?_, ?_⟩
  · rintro ⟨hc, hcond⟩
    have hren : is_rendered ext self i desc = true := by
      unfold is_rendered skipped search_matches
      simp [hc, hcond, hsearch]
    have hdec : decorate ext self (padded_line i desc) =
        ext.quote_for_stfl (padded_line i desc) := by
      unfold decorate
      simp [hsearch]
    simp only [hren, if_true, hdec]
  · intro hnot
    have hren : is_rendered ext self i desc = false := by
      unfold is_rendered skipped
      by_cases hc : desc.ctx = self.context
      · have hcond : condition ext i desc = true := by
          by_contra hcon
          exact hnot ⟨hc, by simpa using hcon⟩
        simp [hctx, hcond]
      · simp [hctx, hc]
    simp only [hren, Bool.false_eq_true, if_false, List.append_nil]
  · simp [condition]
  · simp [condition]
  · simp [condition]

/-- Witness for C1 (amended): key "q" in context "feedlist", pass 0. -/
theorem prepare_context_filter_renders_iff_not_condition_witness :
    (⟨"feedlist", "", false⟩ : HelpFormAction).context.length > 0 ∧
    (⟨"feedlist", "", false⟩ : HelpFormAction).apply_search = false ∧
    short_fields ⟨"q", "quit", "Quit", "feedlist", 0⟩ ∧
    ((∃ st1, visit externals ⟨"feedlist", "", false⟩ 0 ⟨0, 0, ⟨[]⟩⟩
          ⟨"q", "quit", "Quit", "feedlist", 0⟩ = some st1 ∧
      (((⟨"q", "quit", "Quit", "feedlist", 0⟩ : KeyMapDesc).ctx =
            (⟨"feedlist", "", false⟩ : HelpFormAction).context ∧
          condition externals 0 ⟨"q", "quit", "Quit", "feedlist", 0⟩ = false) →
        st1.listfmt.lines = (⟨0, 0, ⟨[]⟩⟩ : PrepareState).listfmt.lines ++
          [externals.quote_for_stfl (padded_line 0 ⟨"q", "quit", "Quit", "feedlist", 0⟩)]) ∧
      (¬((⟨"q", "quit", "Quit", "feedlist", 0⟩ : KeyMapDesc).ctx =
            (⟨"feedlist", "", false⟩ : HelpFormAction).context ∧
          condition externals 0 ⟨"q", "quit", "Quit", "feedlist", 0⟩ = false) →
        st1.listfmt.lines = (⟨0, 0, ⟨[]⟩⟩ : PrepareState).listfmt.lines)) ∧
    (condition externals 0 ⟨"q", "quit", "Quit", "feedlist", 0⟩ = true ↔
      ((⟨"q", "quit", "Quit", "feedlist", 0⟩ : KeyMapDesc).key.length = 0 ∨
        is_syskey externals ⟨"q", "quit", "Quit", "feedlist", 0⟩ = true)) ∧
    (condition externals 1 ⟨"q", "quit", "Quit", "feedlist", 0⟩ = true ↔
      is_syskey externals ⟨"q", "quit", "Quit", "feedlist", 0⟩ = false) ∧
    (condition externals 2 ⟨"q", "quit", "Quit", "feedlist", 0⟩ = true ↔
      ((⟨"q", "quit", "Quit", "feedlist", 0⟩ : KeyMapDesc).key.length > 0 ∨
        is_syskey externals ⟨"q", "quit", "Quit", "feedlist", 0⟩ = true))) :=
  ⟨by decide, by decide, by decide,
    prepare_context_filter_renders_iff_not_condition externals ⟨"feedlist", "", false⟩ 0
      ⟨0, 0, ⟨[]⟩⟩ ⟨"q", "quit", "Quit", "feedlist", 0⟩ (by decide) (by decide) (by decide)⟩

/-! ## The replacement sweep -/

theorem replace_all_from_skip (src dst xs rest : List Char) :
    replace_all_from src dst xs.length (xs ++ rest) = replace_all_from src dst 0 rest := by
  induction xs with
  | nil => rfl
  | cons x xs ih =>
    simp only [List.length_cons, List.cons_append, replace_all_from]
    exact ih

theorem replace_all_from_occurrence (c : Char) (cs dst rest : List Char) :
    replace_all_from (c :: cs) dst 0 ((c :: cs) ++ rest) =
      dst ++ replace_all_from (c :: cs) dst 0 rest := by
  have hpre : (c :: cs).isPrefixOf (c :: (cs ++ rest)) = true := by
    rw [List.isPrefixOf_iff_prefix]
    exact ⟨rest, rfl⟩
  have hstep : replace_all_from (c :: cs) dst 0 (c :: (cs ++ rest)) =
      dst ++ replace_all_from (c :: cs) dst cs.length (cs ++ rest) := by
    rw [replace_all_from, if_pos hpre]
    rfl
  rw [List.cons_append, hstep, replace_all_from_skip]

theorem replace_all_from_other (src dst : List Char) (c : Char) (cs : List Char)
    (h : src.isPrefixOf (c :: cs) = false) :
    replace_all_from src dst 0 (c :: cs) = c :: replace_all_from src dst 0 cs := by
  simp [replace_all_from, h]

/-- C2: for every record list (fewer than 2^32 records, padding defined for each), context filter
and search state, `prepare` hands over, in this order, the record lines of pass 0, the block
"", "Generic bindings:", "" exactly when some input record has the system flag, the record lines
of pass 1, the block "", "Unbound functions:", "" exactly when some input record has empty key
text, and the record lines of pass 2. The record lines of a pass are what its inner loop adds.
Whether a block is present is a function of the records alone. -/
theorem prepare_lines_in_order (ext : Externals) (self : HelpFormAction)
    (descs : List KeyMapDesc) (hshort : ∀ desc ∈ descs, short_fields desc)
    (hlen : descs.length < 2 ^ 32) :
    prepare ext self descs =
      some (record_lines ext self 0 descs ++
        header_block (descs.any (is_syskey ext)) "Generic bindings:" ++
        record_lines ext self 1 descs ++
        header_block (descs.any (fun d => d.key.length == 0)) "Unbound functions:" ++
        record_lines ext self 2 descs) ∧
    (∀ i, pass_lines ext self i descs = some (record_lines ext self i descs)) ∧
    (∀ title, header_block (descs.any (is_syskey ext)) title =
      if ∃ d ∈ descs, is_syskey ext d = true then ["", title, ""] else []) ∧
    (∀ title, header_block (descs.any (fun d => d.key.length == 0)) title =
      if ∃ d ∈ descs, d.key.length = 0 then ["", title, ""] else []) := by
  refine ⟨prepare_of_short ext self descs hshort hlen, ?_, ?_, ?_⟩
  · intro i
    unfold pass_lines
    rw [for_descs_of_short ext self i descs hshort]
    simp
  · intro title
    unfold header_block
    by_cases h : ∃ d ∈ descs, is_syskey ext d = true
    · have ha : descs.any (is_syskey ext) = true := List.any_eq_true.mpr h
      rw [ha, if_pos h, if_pos rfl]
    · have ha : descs.any (is_syskey ext) = false := by
        rw [Bool.eq_false_iff]
        intro hany
        exact h (List.any_eq_true.mp hany)
      rw [ha, if_neg h]
      rfl
  · intro title
    unfold header_block
    by_cases h : ∃ d ∈ descs, d.key.length = 0
    · have ha : descs.any (fun d => d.key.length == 0) = true := by
        rw [List.any_eq_true]
        obtain ⟨d, hd, hk⟩ := h
        exact ⟨d, hd, by simpa using hk⟩
      rw [ha, if_pos h, if_pos rfl]
    · have ha : descs.any (fun d => d.key.length == 0) = false := by
        rw [Bool.eq_false_iff]
        intro hany
        obtain ⟨d, hd, hk⟩ := List.any_eq_true.mp hany
        exact h ⟨d, hd, by simpa using hk⟩
      rw [ha, if_neg h]
      rfl

/-- Witness for C2: three records of context "feedlist", one unbound, one bound, one with the
system flag; the listing has both header blocks. -/
theorem prepare_lines_in_order_witness :
    (∀ desc ∈ [(⟨"", "open", "Open", "feedlist", 0⟩ : KeyMapDesc),
        ⟨"q", "quit", "Quit", "feedlist", 0⟩, ⟨"ENTER", "enter", "Enter", "feedlist", 4096⟩],
      short_fields desc) ∧
    [(⟨"", "open", "Open", "feedlist", 0⟩ : KeyMapDesc),
        ⟨"q", "quit", "Quit", "feedlist", 0⟩,
        ⟨"ENTER", "enter", "Enter", "feedlist", 4096⟩].length < 2 ^ 32 ∧
    prepare externals ⟨"feedlist", "", false⟩
        [⟨"", "open", "Open", "feedlist", 0⟩, ⟨"q", "quit", "Quit", "feedlist", 0⟩,
          ⟨"ENTER", "enter", "Enter", "feedlist", 4096⟩] =
      some ["q               quit                    Quit",
        "", "Generic bindings:", "",
        "ENTER           enter                   Enter",
        "", "Unbound functions:", "",
        "open                                    Open"] :=
  ⟨by decide, by decide,
    ((prepare_lines_in_order externals ⟨"feedlist", "", false⟩
      [⟨"", "open", "Open", "feedlist", 0⟩, ⟨"q", "quit", "Quit", "feedlist", 0⟩,
        ⟨"ENTER", "enter", "Enter", "feedlist", 4096⟩] (by decide) (by decide)).1).trans
      (by decide)⟩

/-- C3: for a record rendered in pass 0 or pass 1 (fields shorter than 2^31 bytes), the line before
escaping is key, padding, command, padding, description; the key padding is 16 - len(key) spaces
when len(key) < 16 and one space otherwise, the command padding 24 - len(command) spaces when
len(command) < 24 and one space otherwise. Both paddings hold at least one space, and when
len(key) < 16 and len(command) < 24 the description starts at column 40 and the line is
40 + len(description) long. -/
theorem plain_line_columns (i : Nat) (desc : KeyMapDesc) (hi : i = 0 ∨ i = 1)
    (hshort : short_fields desc) :
    plain_line i desc =
      some (desc.key ++ padding 16 desc.key.length ++ desc.cmd ++ padding 24 desc.cmd.length ++
        desc.desc) ∧
    (padding 16 desc.key.length).data =
      List.replicate (if desc.key.length < 16 then 16 - desc.key.length else 1) ' ' ∧
    (padding 24 desc.cmd.length).data =
      List.replicate (if desc.cmd.length < 24 then 24 - desc.cmd.length else 1) ' ' ∧
    1 ≤ (padding 16 desc.key.length).length ∧
    1 ≤ (padding 24 desc.cmd.length).length ∧
    (desc.key.length < 16 → desc.cmd.length < 24 →
      (desc.key ++ padding 16 desc.key.length ++ desc.cmd ++
        padding 24 desc.cmd.length).length = 40 ∧
      (desc.key ++ padding 16 desc.key.length ++ desc.cmd ++ padding 24 desc.cmd.length ++
        desc.desc).length = 40 + desc.desc.length) := by
  have hlen : ∀ w l, (padding w l).length = if l < w then w - l else 1 := by
    intro w l
    unfold padding
    simp [String.length]
  refine ⟨?_, rfl, rfl, ?_, ?_, ?_⟩
  · rw [plain_line_of_short i desc hshort]
    unfold padded_line format_line
    rcases hi with h | h <;> subst h <;> rfl
  · rw [hlen]; split <;> omega
  · rw [hlen]; split <;> omega
  · intro hk hc
    simp only [String.length_append, hlen, hk, hc, if_true]
    omega

/-- Witness for C3: key "q", command "quit", pass 0. -/
theorem plain_line_columns_witness :
    ((0 : Nat) = 0 ∨ (0 : Nat) = 1) ∧ short_fields ⟨"q", "quit", "Quit", "feedlist", 0⟩ ∧
    plain_line 0 ⟨"q", "quit", "Quit", "feedlist", 0⟩ =
      some "q               quit                    Quit" :=
  ⟨by decide, by decide,
    ((plain_line_columns 0 ⟨"q", "quit", "Quit", "feedlist", 0⟩ (by decide) (by decide)).1).trans
      (by decide)⟩

/-- C4: with search active, a record that passes the context and pass filter (fields shorter than
2^31 bytes) gets a line exactly when the search phrase is a case-insensitive substring of its key,
its command name or its description (all read as C strings), that is, some substring equals the
phrase byte by byte up to the case of ASCII letters; a record in which the phrase occurs in none
of the three gets no line in any pass; and with an empty phrase every record matches, the listing
being the one produced with search inactive. -/
theorem search_renders_iff_phrase_occurs (ext : Externals) (self : HelpFormAction) (i : Nat)
    (st : PrepareState) (desc : KeyMapDesc) (hsearch : self.apply_search = true)
    (hpass : skipped ext self i desc = false) (hshort : short_fields desc) :
    (∃ st1, visit ext self i st desc = some st1 ∧
      ((∃ line, st1.listfmt.lines = st.listfmt.lines ++ [line]) ↔
        (contains_nocase (c_str desc.key) (c_str self.searchphrase) ∨
          contains_nocase (c_str desc.cmd) (c_str self.searchphrase) ∨
          contains_nocase (c_str desc.desc) (c_str self.searchphrase)))) ∧
    (¬(contains_nocase (c_str desc.key) (c_str self.searchphrase) ∨
          contains_nocase (c_str desc.cmd) (c_str self.searchphrase) ∨
          contains_nocase (c_str desc.desc) (c_str self.searchphrase)) →
      ∀ j s, ∃ s1, visit ext self j s desc = some s1 ∧ s1.listfmt.lines = s.listfmt.lines) ∧
    (self.searchphrase = "" →
      (∀ d : KeyMapDesc, contains_nocase (c_str d.key) (c_str self.searchphrase)) ∧
      ∀ descs, prepare ext self descs =
        prepare ext ⟨self.context, self.searchphrase, false⟩ descs) := by
  have hiff := search_matches_iff self desc
  simp only [hsearch, Bool.true_eq_false, false_or] at hiff
  refine ⟨⟨_, visit_of_short ext self i st desc hshort, ?_⟩, ?_, ?_⟩
  · rw [← hiff]
    unfold is_rendered
    rw [hpass]
    by_cases hm : search_matches self desc = true
    · simp only [hm, Bool.not_false, Bool.and_self, if_true, iff_true]
      exact ⟨_, rfl⟩
    · have hm2 : search_matches self desc = false := by simpa using hm
      rw [hm2]
      constructor
      · rintro ⟨line, hline⟩
        have := congrArg List.length hline
        simp at this
      · intro hf
        exact absurd hf (by decide)
  · intro hnone j s
    rw [← hiff] at hnone
    refine ⟨_, visit_of_short ext self j s desc hshort, ?_⟩
    unfold is_rendered
    have hm : search_matches self desc = false := by simpa using hnone
    simp [hm]
  · intro hempty
    refine ⟨?_, fun descs => prepare_congr ext _ _ (visit_empty_phrase ext self hempty) descs⟩
    intro d
    rw [hempty]
    exact ⟨[], [], c_str d.key, rfl, rfl⟩

/-- Witness for C4: the phrase "QU" is a case-insensitive substring of the command "quit", found
as "qu" before "it", so the record gets its line though no field holds "QU" literally. -/
theorem search_renders_iff_phrase_occurs_witness :
    (⟨"feedlist", "QU", true⟩ : HelpFormAction).apply_search = true ∧
    skipped externals ⟨"feedlist", "QU", true⟩ 0 ⟨"q", "quit", "Leave", "feedlist", 0⟩ = false ∧
    short_fields ⟨"q", "quit", "Leave", "feedlist", 0⟩ ∧
    equal_ignoring_case "qu".data "QU".data = true ∧
    equal_ignoring_case "qu".data "QV".data = false ∧
    (∃ st1, visit externals ⟨"feedlist", "QU", true⟩ 0 ⟨0, 0, ⟨[]⟩⟩
        ⟨"q", "quit", "Leave", "feedlist", 0⟩ = some st1 ∧
      ∃ line, st1.listfmt.lines = (⟨0, 0, ⟨[]⟩⟩ : PrepareState).listfmt.lines ++ [line]) ∧
    visit externals ⟨"feedlist", "QU", true⟩ 0 ⟨0, 0, ⟨[]⟩⟩
        ⟨"q", "quit", "Leave", "feedlist", 0⟩ =
      some ⟨0, 0, ⟨["q               quit                    Leave"]⟩⟩ ∧
    visit externals ⟨"feedlist", "QV", true⟩ 0 ⟨0, 0, ⟨[]⟩⟩
        ⟨"q", "quit", "Leave", "feedlist", 0⟩ = some ⟨0, 0, ⟨[]⟩⟩ :=
  ⟨by decide, by decide, by decide, by decide, by decide,
    ((search_renders_iff_phrase_occurs externals ⟨"feedlist", "QU", true⟩ 0 ⟨0, 0, ⟨[]⟩⟩
      ⟨"q", "quit", "Leave", "feedlist", 0⟩ (by decide) (by decide) (by decide)).1).imp
      (fun _ h => ⟨h.1, h.2.mpr
        (Or.inr (Or.inl ⟨[], "qu".data, "it".data, by decide, by decide⟩))⟩),
    by decide, by decide⟩

/-- C5: the line added for a rendered record (fields shorter than 2^31 bytes) is, with search
active and a non-empty phrase, the escaped padded line in which `replace_all` has put
"<hl>" ++ phrase ++ "</>" for the occurrences of the raw phrase, the escaping being done first;
with search inactive or an empty phrase it is the escaped padded line itself. -/
theorem rendered_line_highlight (ext : Externals) (self : HelpFormAction) (i : Nat)
    (st : PrepareState) (desc : KeyMapDesc) (hshort : short_fields desc)
    (hren : is_rendered ext self i desc = true) :
    ∃ st1, visit ext self i st desc = some st1 ∧
      st1.listfmt.lines = st.listfmt.lines ++
        [if self.apply_search = true ∧ self.searchphrase ≠ "" then
          replace_all (ext.quote_for_stfl (padded_line i desc)) self.searchphrase
            ("<hl>" ++ self.searchphrase ++ "</>")
        else ext.quote_for_stfl (padded_line i desc)] := by
  refine ⟨_, visit_of_short ext self i st desc hshort, ?_⟩
  simp only [hren, if_true]
  congr 2
  unfold decorate highlighted_searchphrase
  have hlen : (self.searchphrase.length > 0) ↔ self.searchphrase ≠ "" := by
    constructor
    · intro h he
      rw [he] at h
      exact absurd h (by decide)
    · intro h
      cases hs : self.searchphrase with
      | mk cs =>
        cases cs with
        | nil => exact absurd hs h
        | cons c rest => simp [String.length]
  by_cases ha : self.apply_search = true
  · by_cases hp : self.searchphrase ≠ ""
    · have hl := hlen.mpr hp
      simp [ha, hp, hl]
    · have hl : ¬ (self.searchphrase.length > 0) := fun h => hp (hlen.mp h)
      simp only [ha, hl, decide_False, Bool.and_false, Bool.false_eq_true, if_false, hp,
        and_false]
  · simp [ha]

/-- Witness for C5: the phrase "ui" is highlighted in the escaped line of the record "q". -/
theorem rendered_line_highlight_witness :
    short_fields ⟨"q", "quit", "<Quit>", "feedlist", 0⟩ ∧
    is_rendered externals ⟨"feedlist", "ui", true⟩ 0 ⟨"q", "quit", "<Quit>", "feedlist", 0⟩
      = true ∧
    ∃ st1, visit externals ⟨"feedlist", "ui", true⟩ 0 ⟨0, 0, ⟨[]⟩⟩
        ⟨"q", "quit", "<Quit>", "feedlist", 0⟩ = some st1 ∧
      st1.listfmt.lines = ["q               q<hl>ui</>t                    <>Q<hl>ui</>t>"] :=
  ⟨by decide, by decide,
    (rendered_line_highlight externals ⟨"feedlist", "ui", true⟩ 0 ⟨0, 0, ⟨[]⟩⟩
      ⟨"q", "quit", "<Quit>", "feedlist", 0⟩ (by decide) (by decide)).imp
      (fun _ h => ⟨h.1, h.2.trans (by decide)⟩)⟩

namespace TextviewWidget

/-! ## Claims on the scroll controller -/

theorem textview_tests_hold :
    (run create [(5, .replace_lines 3), (5, .set_offset 2)]).scroll_offset = 2 ∧
    (run create [(5, .replace_lines 3), (5, .set_offset 2),
      (5, .replace_lines 0)]).scroll_offset = 0 ∧
    (run create [(5, .replace_lines 3), (5, .set_offset 2),
      (5, .replace_lines 2)]).scroll_offset = 1 ∧
    (run create [(5, .replace_lines 3), (5, .set_offset 2),
      (5, .replace_lines 5)]).scroll_offset = 2 ∧
    (run create [(5, .replace_lines 10), (5, .set_offset 2)]).scroll_offset = 2 ∧
    (run create [(5, .replace_lines 10), (5, .set_offset 2), (5, .up)]).scroll_offset = 1 ∧
    (run create [(5, .replace_lines 10), (5, .set_offset 2), (5, .up),
      (5, .up)]).scroll_offset = 0 ∧
    (run create [(5, .replace_lines 10), (5, .set_offset 2), (5, .down)]).scroll_offset = 3 ∧
    (run create [(5, .replace_lines 10), (5, .set_offset 2), (5, .down),
      (5, .down)]).scroll_offset = 4 ∧
    (run create [(5, .replace_lines 10), (5, .set_offset 2), (5, .top)]).scroll_offset = 0 ∧
    (run create [(5, .replace_lines 10), (5, .set_offset 2), (5, .bottom)]).scroll_offset = 6 ∧
    (run create [(5, .replace_lines 10), (5, .set_offset 2), (5, .set_offset 6),
      (5, .page_up)]).scroll_offset = 2 ∧
    (run create [(5, .replace_lines 10), (5, .set_offset 2), (5, .set_offset 6),
      (5, .page_up), (5, .page_up)]).scroll_offset = 0 ∧
    (run create [(5, .replace_lines 10), (5, .set_offset 2), (5, .set_offset 3),
      (5, .page_down)]).scroll_offset = 7 ∧
    (run create [(5, .replace_lines 10), (5, .set_offset 2), (5, .set_offset 3),
      (5, .page_down), (5, .page_down)]).scroll_offset = 9 := by
  decide

theorem apply_within_lines (height : Nat) (w : TextviewWidget) (op : Operation)
    (hh : 1 ≤ height) (hw : w.scroll_offset ≤ w.num_lines) :
    (apply height w op).scroll_offset ≤
      max (last_line (apply height w op).num_lines)
        (max_offset (apply height w op).num_lines height) := by
  cases op with
  | replace_lines n =>
    simp only [apply, stfl_replace_lines, last_line, max_offset]
    split
    · dsimp only; omega
    · split <;> (dsimp only; omega)
  | set_offset n =>
    simp only [apply, set_scroll_offset, last_line, max_offset]
    split
    · dsimp only; omega
    · split <;> (dsimp only; omega)
  | up =>
    simp only [apply, scroll_up, last_line, max_offset]
    split <;> (dsimp only; omega)
  | down =>
    simp only [apply, scroll_down, last_line, max_offset]
    split <;> (dsimp only; omega)
  | page_up =>
    simp only [apply, scroll_page_up, last_line, max_offset]
    split <;> (dsimp only; omega)
  | page_down =>
    simp only [apply, scroll_page_down, last_line, max_offset]
    split <;> (dsimp only; omega)
  | top =>
    simp only [apply, scroll_to_top, last_line, max_offset]
    omega
  | bottom =>
    simp only [apply, scroll_to_bottom, last_line, max_offset]
    omega

theorem bound_le_lines (height n : Nat) (hh : 1 ≤ height) :
    max (last_line n) (max_offset n height) ≤ n := by
  unfold last_line max_offset
  omega

theorem run_within_lines (history : List (Nat × Operation)) (w : TextviewWidget)
    (hh : ∀ p ∈ history, 1 ≤ p.1) (hw : w.scroll_offset ≤ w.num_lines) :
    (run w history).scroll_offset ≤ (run w history).num_lines := by
  induction history generalizing w with
  | nil => exact hw
  | cons p rest ih =>
    obtain ⟨height, op⟩ := p
    have h1 : 1 ≤ height := hh (height, op) (List.mem_cons_self _ _)
    simp only [run]
    apply ih _ (fun q hq => hh q (List.mem_cons_of_mem _ hq))
    exact le_trans (apply_within_lines height w op h1 hw) (bound_le_lines height _ h1)

/-- C6, refuted as stated: on 10 lines with viewport height 5 (test/textviewwidget.cpp:129-138),
`scroll_page_down` from offset 3 gives offset 7, above max(0, 10 − 5 + 1) = 6; and on 3 lines
with height 5 (line_count ≤ viewport_height) `set_scroll_offset(2)` gives offset 2, not 0
(test/textviewwidget.cpp:26-33). -/
theorem offset_above_max_offset_counterexample :
    (apply 5 (run create [(5, .replace_lines 10), (5, .set_offset 3)]) .page_down).num_lines
      = 10 ∧
    (apply 5 (run create [(5, .replace_lines 10), (5, .set_offset 3)]) .page_down).scroll_offset
      = 7 ∧
    ¬ (((apply 5 (run create [(5, .replace_lines 10), (5, .set_offset 3)])
          .page_down).scroll_offset : Int) ≤
        max 0 (((apply 5 (run create [(5, .replace_lines 10), (5, .set_offset 3)])
          .page_down).num_lines : Int) - 5 + 1)) ∧
    (apply 5 (run create [(5, .replace_lines 3)]) (.set_offset 2)).num_lines ≤ 5 ∧
    (apply 5 (run create [(5, .replace_lines 3)]) (.set_offset 2)).scroll_offset = 2 := by
  decide

/-- C6 (amended): after any operation of the scroll controller, carried out at a viewport height
of at least 1 on a widget that has gone through any history of operations at heights of at least
1 since its creation, 0 ≤ offset ≤ max(0, line_count − 1, line_count − viewport_height + 1), and
the offset is 0 whenever line_count is 0. -/
theorem offset_within_bounds (history : List (Nat × Operation)) (height : Nat) (op : Operation)
    (hh : ∀ p ∈ history, 1 ≤ p.1) (hheight : 1 ≤ height) :
    (0 : Int) ≤ ((apply height (run create history) op).scroll_offset : Int) ∧
    ((apply height (run create history) op).scroll_offset : Int) ≤
      max 0 (max (((apply height (run create history) op).num_lines : Int) - 1)
        (((apply height (run create history) op).num_lines : Int) - (height : Int) + 1)) ∧
    ((apply height (run create history) op).num_lines = 0 →
      (apply height (run create history) op).scroll_offset = 0) := by
  have hrun : (run create history).scroll_offset ≤ (run create history).num_lines :=
    run_within_lines history create hh (Nat.le_refl 0)
  have hstep := apply_within_lines height (run create history) op hheight hrun
  unfold last_line max_offset at hstep
  refine ⟨by omega, by omega, ?_⟩
  intro hzero
  rw [hzero] at hstep
  omega

/-- Witness for C6 (amended): the history of the page-down test, then one more page down. -/
theorem offset_within_bounds_witness :
    (∀ p ∈ [((5 : Nat), Operation.replace_lines 10), (5, .set_offset 3), (5, .page_down)],
      1 ≤ p.1) ∧ 1 ≤ 5 ∧
    ((apply 5 (run create [(5, .replace_lines 10), (5, .set_offset 3), (5, .page_down)])
        .page_down).scroll_offset : Int) ≤
      max 0 (max (((apply 5 (run create [(5, .replace_lines 10), (5, .set_offset 3),
          (5, .page_down)]) .page_down).num_lines : Int) - 1)
        (((apply 5 (run create [(5, .replace_lines 10), (5, .set_offset 3),
          (5, .page_down)]) .page_down).num_lines : Int) - ((5 : Nat) : Int) + 1)) :=
  ⟨by decide, by decide,
    (offset_within_bounds [(5, .replace_lines 10), (5, .set_offset 3), (5, .page_down)] 5
      .page_down (by decide) (by decide)).2.1⟩

/-- C7: on n ≥ 1 lines, with viewport height h ≥ 1 and any offset o (so also every o ≤ n − 1),
`scroll_page_down` sets the offset to min(o + (h − 1), n − 1) and leaves the line count alone: it
advances by h − 1 lines unless that would pass the last line, where it stops. On 10 lines with
height 5, two calls from offset 3 give 7 and then 9. -/
theorem scroll_page_down_offset (n h o : Nat) (hn : 1 ≤ n) (hh : 1 ≤ h) :
    ((scroll_page_down ⟨n, o⟩ h).scroll_offset : Int) =
      min ((o : Int) + ((h : Int) - 1)) ((n : Int) - 1) ∧
    (scroll_page_down ⟨n, o⟩ h).num_lines = n ∧
    (scroll_page_down ⟨10, 3⟩ 5).scroll_offset = 7 ∧
    (scroll_page_down (scroll_page_down ⟨10, 3⟩ 5) 5).scroll_offset = 9 := by
  have hcases : (o + (h - 1) < n - 1 ∧ scroll_page_down ⟨n, o⟩ h = ⟨n, o + (h - 1)⟩) ∨
      (¬ o + (h - 1) < n - 1 ∧ scroll_page_down ⟨n, o⟩ h = ⟨n, n - 1⟩) := by
    unfold scroll_page_down last_line
    by_cases hlt : o + (h - 1) < n - 1
    · left; exact ⟨hlt, by simp only [hlt, if_true]⟩
    · right; exact ⟨hlt, by simp only [hlt, if_false]⟩
  refine ⟨?_, ?_, by decide, by decide⟩ <;>
    (rcases hcases with ⟨hlt, heq⟩ | ⟨hlt, heq⟩ <;> rw [heq] <;> dsimp only <;> omega)

/-- Witness for C7: 10 lines, height 5, offset 3. -/
theorem scroll_page_down_offset_witness :
    1 ≤ 10 ∧ 1 ≤ 5 ∧
    ((scroll_page_down ⟨10, 3⟩ 5).scroll_offset : Int) =
      min (((3 : Nat) : Int) + (((5 : Nat) : Int) - 1)) (((10 : Nat) : Int) - 1) :=
  ⟨by decide, by decide, (scroll_page_down_offset 10 5 3 (by decide) (by decide)).1⟩

/-- C8: for every offset o and viewport height h ≥ 1, `scroll_page_up` sets the offset to
max(0, o − (h − 1)) and leaves the line count alone; with height 5, two calls from offset 6 give 2
and then 0. -/
theorem scroll_page_up_offset (n h o : Nat) (hh : 1 ≤ h) :
    ((scroll_page_up ⟨n, o⟩ h).scroll_offset : Int) = max 0 ((o : Int) - ((h : Int) - 1)) ∧
    (scroll_page_up ⟨n, o⟩ h).num_lines = n ∧
    (scroll_page_up ⟨10, 6⟩ 5).scroll_offset = 2 ∧
    (scroll_page_up (scroll_page_up ⟨10, 6⟩ 5) 5).scroll_offset = 0 := by
  have hcases : (o ≥ h - 1 ∧ scroll_page_up ⟨n, o⟩ h = ⟨n, o - (h - 1)⟩) ∨
      (¬ o ≥ h - 1 ∧ scroll_page_up ⟨n, o⟩ h = ⟨n, 0⟩) := by
    unfold scroll_page_up
    by_cases hge : o ≥ h - 1
    · left; exact ⟨hge, by simp only [hge, if_true]⟩
    · right; exact ⟨hge, by simp only [hge, if_false]⟩
  refine ⟨?_, ?_, by decide, by decide⟩ <;>
    (rcases hcases with ⟨hge, heq⟩ | ⟨hge, heq⟩ <;> rw [heq] <;> dsimp only <;> omega)

/-- Witness for C8: 10 lines, height 5, offset 6. -/
theorem scroll_page_up_offset_witness :
    1 ≤ 5 ∧
    ((scroll_page_up ⟨10, 6⟩ 5).scroll_offset : Int) =
      max 0 (((6 : Nat) : Int) - (((5 : Nat) : Int) - 1)) :=
  ⟨by decide, (scroll_page_up_offset 10 5 6 (by decide)).1⟩

/-- C9: when the content is replaced by n ≥ 1 lines, the new offset is min(old offset, n − 1):
it never exceeds the old offset, it is the old offset when lines were added to a widget whose
offset was within its lines, and an offset beyond the last remaining line is pulled back to that
line and no further. With offset 2 on 3 lines, 5 lines leave offset 2 and 2 lines give offset 1. -/
theorem replace_lines_offset (w : TextviewWidget) (n : Nat) (hn : 1 ≤ n) :
    (stfl_replace_lines w n).scroll_offset = min w.scroll_offset (n - 1) ∧
    (stfl_replace_lines w n).num_lines = n ∧
    (stfl_replace_lines w n).scroll_offset ≤ w.scroll_offset ∧
    (w.scroll_offset ≤ w.num_lines → w.num_lines < n →
      (stfl_replace_lines w n).scroll_offset = w.scroll_offset) ∧
    (w.scroll_offset ≤ n - 1 → (stfl_replace_lines w n).scroll_offset = w.scroll_offset) ∧
    (n - 1 < w.scroll_offset → (stfl_replace_lines w n).scroll_offset = n - 1) ∧
    (stfl_replace_lines ⟨3, 2⟩ 5).scroll_offset = 2 ∧
    (stfl_replace_lines ⟨3, 2⟩ 2).scroll_offset = 1 := by
  have hne : ¬ n = 0 := by omega
  have hcases : (w.scroll_offset > n - 1 ∧ stfl_replace_lines w n = ⟨n, n - 1⟩) ∨
      (¬ w.scroll_offset > n - 1 ∧ stfl_replace_lines w n = ⟨n, w.scroll_offset⟩) := by
    unfold stfl_replace_lines last_line
    simp only [hne, if_false]
    by_cases hgt : w.scroll_offset > n - 1
    · left; exact ⟨hgt, by simp only [hgt, if_true]⟩
    · right; exact ⟨hgt, by simp only [hgt, if_false]⟩
  refine ⟨?_, ?_, ?_, ?_, ?_, ?_, by decide, by decide⟩ <;>
    (rcases hcases with ⟨hgt, heq⟩ | ⟨hgt, heq⟩ <;> rw [heq] <;> dsimp only <;> omega)

/-- Witness for C9: offset 2 on 3 lines, replaced by 2 lines. -/
theorem replace_lines_offset_witness :
    1 ≤ 2 ∧
    (stfl_replace_lines ⟨3, 2⟩ 2).scroll_offset =
      min (⟨3, 2⟩ : TextviewWidget).scroll_offset (2 - 1) :=
  ⟨by decide, (replace_lines_offset ⟨3, 2⟩ 2 (by decide)).1⟩

/-- C10: for every prior offset (and prior line count), replacing the displayed content with zero
lines sets the offset to 0. -/
theorem replace_lines_empty_resets (w : TextviewWidget) :
    (stfl_replace_lines w 0).scroll_offset = 0 ∧ (stfl_replace_lines w 0).num_lines = 0 := by
  unfold stfl_replace_lines
  simp

end TextviewWidget

/-! ## Further claims on the padding and on pass 2 -/

/-- C12: for a record rendered in pass 2 (fields shorter than 2^31 bytes), the line before escaping
is command, key padding, command padding, description, the key text itself being left out; the key
padding is 16 - len(key) spaces when len(key) < 16 and one space otherwise, the command padding
24 - len(command) spaces when len(command) < 24 and one space otherwise. With empty key text and
len(command) < 24 the description starts at column 40, as in passes 0 and 1. -/
theorem plain_line_without_key (desc : KeyMapDesc) (hshort : short_fields desc) :
    plain_line 2 desc =
      some (desc.cmd ++ padding 16 desc.key.length ++ padding 24 desc.cmd.length ++ desc.desc) ∧
    (padding 16 desc.key.length).data =
      List.replicate (if desc.key.length < 16 then 16 - desc.key.length else 1) ' ' ∧
    (padding 24 desc.cmd.length).data =
      List.replicate (if desc.cmd.length < 24 then 24 - desc.cmd.length else 1) ' ' ∧
    (desc.key.length = 0 → desc.cmd.length < 24 →
      (desc.cmd ++ padding 16 desc.key.length ++ padding 24 desc.cmd.length).length = 40 ∧
      (desc.cmd ++ padding 16 desc.key.length ++ padding 24 desc.cmd.length ++
        desc.desc).length = 40 + desc.desc.length ∧
      (desc.key ++ padding 16 desc.key.length ++ desc.cmd ++
        padding 24 desc.cmd.length).length = 40) := by
  have hlen : ∀ w l, (padding w l).length = if l < w then w - l else 1 := by
    intro w l
    unfold padding
    simp [String.length]
  refine ⟨?_, rfl, rfl, ?_⟩
  · rw [plain_line_of_short 2 desc hshort]
    rfl
  · intro hk hc
    have h16 : (0 : Nat) < 16 := by decide
    simp only [String.length_append, hlen, hk, hc, h16, if_true]
    omega

/-- Witness for C12: an unbound command "open". -/
theorem plain_line_without_key_witness :
    short_fields ⟨"", "open", "Open", "feedlist", 0⟩ ∧
    plain_line 2 ⟨"", "open", "Open", "feedlist", 0⟩ =
      some "open                                    Open" :=
  ⟨by decide,
    ((plain_line_without_key ⟨"", "open", "Open", "feedlist", 0⟩ (by decide)).1).trans
      (by decide)⟩

/-- C18: for a record whose key and command are shorter than 2^31 bytes, the index at which the
terminator is written into the 16-space buffer lies in [1, 16] and the index for the 24-space
buffer in [1, 24], so both writes are inside the 17-byte and 25-byte arrays: the difference
strlen − length, taken in `size_t` and converted to `int`, is either in that range or not
positive, and then 1 is taken. -/
theorem how_often_within_buffer (desc : KeyMapDesc) (hshort : short_fields desc) :
    (1 ≤ how_often 16 desc.key.length ∧ how_often 16 desc.key.length ≤ 16) ∧
    (1 ≤ how_often 24 desc.cmd.length ∧ how_often 24 desc.cmd.length ≤ 24) ∧
    (terminate_at 16 (how_often 16 desc.key.length)).isSome = true ∧
    (terminate_at 24 (how_often 24 desc.cmd.length)).isSome = true ∧
    ((1 ≤ to_int ((16 + 2 ^ 64 - desc.key.length % 2 ^ 64) % 2 ^ 64) ∧
        to_int ((16 + 2 ^ 64 - desc.key.length % 2 ^ 64) % 2 ^ 64) ≤ 16) ∨
      (to_int ((16 + 2 ^ 64 - desc.key.length % 2 ^ 64) % 2 ^ 64) ≤ 0 ∧
        how_often 16 desc.key.length = 1)) ∧
    ((1 ≤ to_int ((24 + 2 ^ 64 - desc.cmd.length % 2 ^ 64) % 2 ^ 64) ∧
        to_int ((24 + 2 ^ 64 - desc.cmd.length % 2 ^ 64) % 2 ^ 64) ≤ 24) ∨
      (to_int ((24 + 2 ^ 64 - desc.cmd.length % 2 ^ 64) % 2 ^ 64) ≤ 0 ∧
        how_often 24 desc.cmd.length = 1)) := by
  have hk := how_often_of_short 16 desc.key.length (by decide) hshort.1
  have hc := how_often_of_short 24 desc.cmd.length (by decide) hshort.2
  have hrange : ∀ w l : Nat, 0 < w →
      how_often w l = (if l < w then ((w - l : Nat) : Int) else 1) →
      1 ≤ how_often w l ∧ how_often w l ≤ (w : Int) := by
    intro w l hw h
    rw [h]
    split <;> omega
  have hraw : ∀ w l : Nat,
      how_often w l = (if l < w then ((w - l : Nat) : Int) else 1) →
      1 ≤ how_often w l ∧ how_often w l ≤ (w : Int) →
      ((1 ≤ to_int ((w + 2 ^ 64 - l % 2 ^ 64) % 2 ^ 64) ∧
          to_int ((w + 2 ^ 64 - l % 2 ^ 64) % 2 ^ 64) ≤ (w : Int)) ∨
        (to_int ((w + 2 ^ 64 - l % 2 ^ 64) % 2 ^ 64) ≤ 0 ∧ how_often w l = 1)) := by
    intro w l _ hr
    by_cases hpos : to_int ((w + 2 ^ 64 - l % 2 ^ 64) % 2 ^ 64) ≤ 0
    · right
      refine ⟨hpos, ?_⟩
      unfold how_often
      simp only [hpos, if_true]
    · left
      have heq : how_often w l = to_int ((w + 2 ^ 64 - l % 2 ^ 64) % 2 ^ 64) := by
        unfold how_often
        simp only [hpos, if_false]
      rw [← heq]
      exact hr
  have rk := hrange 16 desc.key.length (by decide) hk
  have rc := hrange 24 desc.cmd.length (by decide) hc
  refine ⟨rk, rc, ?_, ?_, hraw 16 desc.key.length hk rk, hraw 24 desc.cmd.length hc rc⟩
  · rw [terminate_at_how_often 16 desc.key.length (by decide) (by decide) hshort.1]
    rfl
  · rw [terminate_at_how_often 24 desc.cmd.length (by decide) (by decide) hshort.2]
    rfl

/-- Witness for C18: a key of 17 bytes, for which the difference is negative, and a command of 4
bytes. -/
theorem how_often_within_buffer_witness :
    short_fields ⟨"12345678901234567", "open", "Open", "feedlist", 0⟩ ∧
    (1 ≤ how_often 16
        (⟨"12345678901234567", "open", "Open", "feedlist", 0⟩ : KeyMapDesc).key.length ∧
      how_often 16
        (⟨"12345678901234567", "open", "Open", "feedlist", 0⟩ : KeyMapDesc).key.length ≤ 16) ∧
    (1 ≤ how_often 24
        (⟨"12345678901234567", "open", "Open", "feedlist", 0⟩ : KeyMapDesc).cmd.length ∧
      how_often 24
        (⟨"12345678901234567", "open", "Open", "feedlist", 0⟩ : KeyMapDesc).cmd.length ≤ 24) :=
  ⟨by decide,
    (how_often_within_buffer ⟨"12345678901234567", "open", "Open", "feedlist", 0⟩
      (by decide)).1,
    (how_often_within_buffer ⟨"12345678901234567", "open", "Open", "feedlist", 0⟩
      (by decide)).2.1⟩

/-! ## Which records each pass renders -/

theorem record_lines_of_inactive (ext : Externals) (self : HelpFormAction) (i : Nat)
    (descs : List KeyMapDesc) (hsearch : self.apply_search = false) :
    record_lines ext self i descs =
      (descs.filter (fun d => !(skipped ext self i d))).map
        (fun d => ext.quote_for_stfl (padded_line i d)) := by
  unfold record_lines
  have hren : is_rendered ext self i = fun d => !(skipped ext self i d) := by
    funext d
    unfold is_rendered search_matches
    simp [hsearch]
  have hdec : (fun d => decorate ext self (padded_line i d)) =
      fun d => ext.quote_for_stfl (padded_line i d) := by
    funext d
    unfold decorate
    simp [hsearch]
  rw [hren, hdec]

theorem pass_lines_of_short (ext : Externals) (self : HelpFormAction) (i : Nat)
    (descs : List KeyMapDesc) (hshort : ∀ desc ∈ descs, short_fields desc) :
    pass_lines ext self i descs = some (record_lines ext self i descs) := by
  unfold pass_lines
  rw [for_descs_of_short ext self i descs hshort]
  simp

theorem one_pass_per_record (ext : Externals) (context : String) (descs : List KeyMapDesc) :
    (descs.filter (fun d => decide (d.ctx = context) && decide (d.key.length > 0) &&
        !(is_syskey ext d))).length +
      (descs.filter (fun d => decide (d.ctx = context) && is_syskey ext d)).length +
      (descs.filter (fun d => decide (d.ctx = context) && decide (d.key.length = 0) &&
        !(is_syskey ext d))).length =
    descs.countP (fun d => d.ctx == context) := by
  induction descs with
  | nil => rfl
  | cons d ds ih =>
    simp only [List.filter_cons, List.countP_cons]
    by_cases hc : d.ctx = context <;> by_cases hk : d.key.length = 0 <;>
      by_cases hs : is_syskey ext d = true <;>
      simp [hc, hk, hs, Nat.pos_iff_ne_zero] at ih ⊢ <;> omega

/-- C13: with a non-empty context filter and search inactive (fields shorter than 2^31 bytes),
pass 0 renders exactly the records of the filter's context that have key text and no system flag,
pass 1 exactly those with the system flag, pass 2 exactly those with empty key text and no system
flag, each in input order as its escaped padded line; so a record of the filter's context is
rendered in exactly one pass, a record of another context in none, and the number of record lines
is the number of records of the filter's context. -/
theorem prepare_partitions_context (ext : Externals) (self : HelpFormAction)
    (descs : List KeyMapDesc) (hctx : self.context.length > 0)
    (hsearch : self.apply_search = false) (hshort : ∀ desc ∈ descs, short_fields desc) :
    pass_lines ext self 0 descs =
      some ((descs.filter (fun d => decide (d.ctx = self.context) && decide (d.key.length > 0) &&
        !(is_syskey ext d))).map (fun d => ext.quote_for_stfl (padded_line 0 d))) ∧
    pass_lines ext self 1 descs =
      some ((descs.filter (fun d => decide (d.ctx = self.context) && is_syskey ext d)).map
        (fun d => ext.quote_for_stfl (padded_line 1 d))) ∧
    pass_lines ext self 2 descs =
      some ((descs.filter (fun d => decide (d.ctx = self.context) && decide (d.key.length = 0) &&
        !(is_syskey ext d))).map (fun d => ext.quote_for_stfl (padded_line 2 d))) ∧
    (∀ d : KeyMapDesc,
      ((List.range 3).filter (fun i => is_rendered ext self i d)).length =
        if d.ctx = self.context then 1 else 0) ∧
    (∃ a b c, pass_lines ext self 0 descs = some a ∧ pass_lines ext self 1 descs = some b ∧
      pass_lines ext self 2 descs = some c ∧
      a.length + b.length + c.length = descs.countP (fun d => d.ctx == self.context)) := by
  have h0 : (fun d => !(skipped ext self 0 d)) = fun d =>
      decide (d.ctx = self.context) && decide (d.key.length > 0) && !(is_syskey ext d) := by
    funext d
    unfold skipped condition
    by_cases hc : d.ctx = self.context <;> by_cases hk : d.key.length = 0 <;>
      by_cases hs : is_syskey ext d = true <;> simp [hctx, hc, hk, hs, Nat.pos_iff_ne_zero]
  have h1 : (fun d => !(skipped ext self 1 d)) = fun d =>
      decide (d.ctx = self.context) && is_syskey ext d := by
    funext d
    unfold skipped condition
    by_cases hc : d.ctx = self.context <;>
      by_cases hs : is_syskey ext d = true <;> simp [hctx, hc, hs]
  have h2 : (fun d => !(skipped ext self 2 d)) = fun d =>
      decide (d.ctx = self.context) && decide (d.key.length = 0) && !(is_syskey ext d) := by
    funext d
    unfold skipped condition
    by_cases hc : d.ctx = self.context <;> by_cases hk : d.key.length = 0 <;>
      by_cases hs : is_syskey ext d = true <;> simp [hctx, hc, hk, hs, Nat.pos_iff_ne_zero]
  have p0 := pass_lines_of_short ext self 0 descs hshort
  have p1 := pass_lines_of_short ext self 1 descs hshort
  have p2 := pass_lines_of_short ext self 2 descs hshort
  rw [record_lines_of_inactive ext self _ descs hsearch] at p0 p1 p2
  rw [h0] at p0
  rw [h1] at p1
  rw [h2] at p2
  refine ⟨p0, p1, p2, ?_, ⟨_, _, _, p0, p1, p2, ?_⟩⟩
  · intro d
    have e0 := congrFun h0 d
    have e1 := congrFun h1 d
    have e2 := congrFun h2 d
    simp only at e0 e1 e2
    have hr : List.range 3 = [0, 1, 2] := by decide
    have hir : ∀ i, is_rendered ext self i d = !(skipped ext self i d) := by
      intro i
      unfold is_rendered search_matches
      simp [hsearch]
    rw [hr]
    simp only [List.filter_cons, List.filter_nil, hir, e0, e1, e2]
    by_cases hc : d.ctx = self.context <;> by_cases hk : d.key.length = 0 <;>
      by_cases hs : is_syskey ext d = true <;> simp [hc, hk, hs, Nat.pos_iff_ne_zero]
  · simp only [List.length_map]
    exact one_pass_per_record ext self.context descs

/-- Witness for C13: three records of context "feedlist" and one of context "article". -/
theorem prepare_partitions_context_witness :
    (⟨"feedlist", "", false⟩ : HelpFormAction).context.length > 0 ∧
    (⟨"feedlist", "", false⟩ : HelpFormAction).apply_search = false ∧
    (∀ desc ∈ [(⟨"", "open", "Open", "feedlist", 0⟩ : KeyMapDesc),
        ⟨"q", "quit", "Quit", "feedlist", 0⟩, ⟨"ENTER", "enter", "Enter", "feedlist", 4096⟩,
        ⟨"n", "next", "Next", "article", 0⟩],
      short_fields desc) ∧
    pass_lines externals ⟨"feedlist", "", false⟩ 0
        [⟨"", "open", "Open", "feedlist", 0⟩, ⟨"q", "quit", "Quit", "feedlist", 0⟩,
          ⟨"ENTER", "enter", "Enter", "feedlist", 4096⟩, ⟨"n", "next", "Next", "article", 0⟩] =
      some ["q               quit                    Quit"] :=
  ⟨by decide, by decide, by decide,
    ((prepare_partitions_context externals ⟨"feedlist", "", false⟩
      [⟨"", "open", "Open", "feedlist", 0⟩, ⟨"q", "quit", "Quit", "feedlist", 0⟩,
        ⟨"ENTER", "enter", "Enter", "feedlist", 4096⟩, ⟨"n", "next", "Next", "article", 0⟩]
      (by decide) (by decide) (by decide)).1).trans (by decide)⟩

/-- C14: with an empty context filter and search inactive (fewer than 2^32 records, fields shorter
than 2^31 bytes), each of the three passes renders every input record, whatever its key text and
flags, so for n records `prepare` hands over 3·n record lines, plus 3 header lines if some record
has the system flag, plus 3 header lines if some record has empty key text. -/
theorem prepare_without_context_renders_all (ext : Externals) (self : HelpFormAction)
    (descs : List KeyMapDesc) (hctx : self.context = "") (hsearch : self.apply_search = false)
    (hshort : ∀ desc ∈ descs, short_fields desc) (hlen : descs.length < 2 ^ 32) :
    (∀ i, pass_lines ext self i descs =
      some (descs.map (fun d => ext.quote_for_stfl (padded_line i d)))) ∧
    prepare ext self descs =
      some (descs.map (fun d => ext.quote_for_stfl (padded_line 0 d)) ++
        header_block (descs.any (is_syskey ext)) "Generic bindings:" ++
        descs.map (fun d => ext.quote_for_stfl (padded_line 1 d)) ++
        header_block (descs.any (fun d => d.key.length == 0)) "Unbound functions:" ++
        descs.map (fun d => ext.quote_for_stfl (padded_line 2 d))) ∧
    (∃ lines, prepare ext self descs = some lines ∧
      lines.length = 3 * descs.length +
        (if ∃ d ∈ descs, is_syskey ext d = true then 3 else 0) +
        (if ∃ d ∈ descs, d.key.length = 0 then 3 else 0)) := by
  have hall : ∀ i, record_lines ext self i descs =
      descs.map (fun d => ext.quote_for_stfl (padded_line i d)) := by
    intro i
    rw [record_lines_of_inactive ext self i descs hsearch]
    have hskip : (fun d => !(skipped ext self i d)) = fun _ => true := by
      funext d
      unfold skipped
      rw [hctx]
      rfl
    rw [hskip, List.filter_true]
  have hprep := prepare_of_short ext self descs hshort hlen
  rw [hall 0, hall 1, hall 2] at hprep
  refine ⟨?_, hprep, ⟨_, hprep, ?_⟩⟩
  · intro i
    rw [pass_lines_of_short ext self i descs hshort, hall i]
  · have hs : (header_block (descs.any (is_syskey ext)) "Generic bindings:").length =
        if ∃ d ∈ descs, is_syskey ext d = true then 3 else 0 := by
      unfold header_block
      by_cases h : descs.any (is_syskey ext) = true
      · rw [if_pos h, if_pos (List.any_eq_true.mp h)]
        rfl
      · rw [if_neg h, if_neg (fun hex => h (List.any_eq_true.mpr hex))]
        rfl
    have hu : (header_block (descs.any (fun d => d.key.length == 0))
        "Unbound functions:").length = if ∃ d ∈ descs, d.key.length = 0 then 3 else 0 := by
      unfold header_block
      by_cases h : descs.any (fun d => d.key.length == 0) = true
      · have hex : ∃ d ∈ descs, d.key.length = 0 := by
          obtain ⟨d, hd, hk⟩ := List.any_eq_true.mp h
          exact ⟨d, hd, by simpa using hk⟩
        rw [if_pos h, if_pos hex]
        rfl
      · have hex : ¬ ∃ d ∈ descs, d.key.length = 0 := by
          rintro ⟨d, hd, hk⟩
          exact h (List.any_eq_true.mpr ⟨d, hd, by simpa using hk⟩)
        rw [if_neg h, if_neg hex]
        rfl
    simp only [List.length_append, List.length_map, hs, hu]
    omega

/-- Witness for C14: two records, one of them unbound; 6 record lines and one header block. -/
theorem prepare_without_context_renders_all_witness :
    (⟨"", "", false⟩ : HelpFormAction).context = "" ∧
    (⟨"", "", false⟩ : HelpFormAction).apply_search = false ∧
    (∀ desc ∈ [(⟨"", "open", "Open", "feedlist", 0⟩ : KeyMapDesc),
        ⟨"q", "quit", "Quit", "feedlist", 0⟩], short_fields desc) ∧
    [(⟨"", "open", "Open", "feedlist", 0⟩ : KeyMapDesc),
      ⟨"q", "quit", "Quit", "feedlist", 0⟩].length < 2 ^ 32 ∧
    prepare externals ⟨"", "", false⟩
        [⟨"", "open", "Open", "feedlist", 0⟩, ⟨"q", "quit", "Quit", "feedlist", 0⟩] =
      some ["                open                    Open",
        "q               quit                    Quit",
        "                open                    Open",
        "q               quit                    Quit",
        "", "Unbound functions:", "",
        "open                                    Open",
        "quit                                   Quit"] :=
  ⟨by decide, by decide, by decide, by decide,
    ((prepare_without_context_renders_all externals ⟨"", "", false⟩
      [⟨"", "open", "Open", "feedlist", 0⟩, ⟨"q", "quit", "Quit", "feedlist", 0⟩]
      (by decide) (by decide) (by decide) (by decide)).2.1).trans (by decide)⟩

/-! ## The colour string -/

theorem drop_eq_getD_cons (l : List String) (i : Nat) (h : i < l.length) (d : String) :
    l.drop i = l.getD i d :: l.drop (i + 1) := by
  induction l generalizing i with
  | nil => simp at h
  | cons a t ih =>
    cases i with
    | zero => rfl
    | succ j =>
      simp only [List.drop_succ_cons, List.getD_cons_succ]
      exact ih j (by simpa using h)

theorem join_commas_pos (xs : List String) (hne : xs ≠ []) (hpos : ∀ y ∈ xs, y.length > 0) :
    (join_commas xs).length > 0 := by
  cases xs with
  | nil => exact absurd rfl hne
  | cons a t =>
    have ha : a.length > 0 := hpos a (List.mem_cons_self _ _)
    cases t with
    | nil => exact ha
    | cons b r =>
      simp only [join_commas, String.length_append]
      omega

theorem join_commas_snoc (xs : List String) (x : String) (hpos : ∀ y ∈ xs, y.length > 0) :
    join_commas (xs ++ [x]) = append_separator (join_commas xs) ++ x := by
  induction xs with
  | nil => rfl
  | cons a t ih =>
    have ha : a.length > 0 := hpos a (List.mem_cons_self _ _)
    have ht : ∀ y ∈ t, y.length > 0 := fun y hy => hpos y (List.mem_cons_of_mem _ hy)
    cases t with
    | nil =>
      simp only [List.cons_append, List.nil_append, join_commas, append_separator, ha, if_true]
    | cons b r =>
      have hjoin : (join_commas (b :: r)).length > 0 :=
        join_commas_pos (b :: r) (by simp) ht
      have hall : (a ++ "," ++ join_commas (b :: r)).length > 0 := by
        simp only [String.length_append]
        omega
      have ih2 := ih ht
      simp only [List.cons_append] at ih2 ⊢
      have e1 : append_separator (join_commas (b :: r)) = join_commas (b :: r) ++ "," := by
        unfold append_separator
        rw [if_pos hjoin]
      have e2 : append_separator (a ++ "," ++ join_commas (b :: r)) =
          a ++ "," ++ join_commas (b :: r) ++ "," := by
        unfold append_separator
        rw [if_pos hall]
      simp only [join_commas]
      rw [ih2, e1, e2]
      simp only [String.append_assoc]

theorem foldl_attr_eq_join (attrs pre : List String) (hpos : ∀ y ∈ pre, y.length > 0) :
    attrs.foldl (fun r c => append_separator r ++ "attr=" ++ c) (join_commas pre) =
      join_commas (pre ++ attrs.map (fun attr => "attr=" ++ attr)) := by
  induction attrs generalizing pre with
  | nil => simp
  | cons c cs ih =>
    simp only [List.foldl_cons, List.map_cons]
    have hstep : append_separator (join_commas pre) ++ "attr=" ++ c =
        join_commas (pre ++ ["attr=" ++ c]) := by
      rw [join_commas_snoc pre _ hpos, String.append_assoc]
    rw [hstep]
    have hpos2 : ∀ y ∈ pre ++ ["attr=" ++ c], y.length > 0 := by
      intro y hy
      rcases List.mem_append.mp hy with h | h
      · exact hpos y h
      · rw [List.mem_singleton.mp h]
        simp only [String.length_append]
        have : ("attr=" : String).length = 5 := by decide
        omega
    rw [ih (pre ++ ["attr=" ++ c]) hpos2, List.append_assoc]
    rfl

theorem attr_loop_eq_foldl (colors : List String) (hlen : colors.length < 2 ^ 32)
    (fuel i : Nat) (result : String) (hfuel : colors.length ≤ fuel + i) :
    attr_loop colors fuel i result =
      some ((colors.drop i).foldl (fun r c => append_separator r ++ "attr=" ++ c) result) := by
  induction fuel generalizing i result with
  | zero =>
    have hge : ¬ i < colors.length := by omega
    simp only [attr_loop, hge, if_false]
    rw [List.drop_eq_nil_of_le (by omega)]
    rfl
  | succ n ih =>
    by_cases hlt : i < colors.length
    · have hmod : (i + 1) % 2 ^ 32 = i + 1 := Nat.mod_eq_of_lt (by omega)
      simp only [attr_loop, hlt, if_true, hmod]
      rw [ih (i + 1) _ (by omega), drop_eq_getD_cons colors i hlt ""]
      rfl
    · simp only [attr_loop, hlt, if_false]
      rw [List.drop_eq_nil_of_le (by omega)]
      rfl

theorem component_pos (tag value : String) (htag : tag.length > 0) :
    (tag ++ value).length > 0 := by
  simp only [String.length_append]
  omega

theorem make_colorstring_eq_join (fuel : Nat) (colors : List String)
    (hlen : colors.length < 2 ^ 32) (hfuel : colors.length ≤ fuel + 2) :
    make_colorstring fuel colors = some (join_commas (color_components colors)) := by
  have hfg : ∀ v : String, ("fg=" ++ v).length > 0 := fun v => component_pos _ v (by decide)
  have hbg : ∀ v : String, ("bg=" ++ v).length > 0 := fun v => component_pos _ v (by decide)
  cases colors with
  | nil => rfl
  | cons a t =>
    cases t with
    | nil =>
      unfold make_colorstring color_components
      rw [attr_loop_eq_foldl [a] hlen fuel 2 _ hfuel]
      by_cases ha : a = "default"
      · subst ha
        rfl
      · have ha2 : (a != "default") = true := by simpa using ha
        simp [ha, ha2, join_commas]
    | cons b r =>
      unfold make_colorstring color_components
      rw [attr_loop_eq_foldl (a :: b :: r) hlen fuel 2 _ hfuel]
      have hdrop : (a :: b :: r).drop 2 = r := rfl
      simp only [hdrop, List.length_cons, List.getD_cons_zero, List.getD_cons_succ,
        List.head?_cons, List.tail_cons, String.empty_append]
      have hgt0 : r.length + 1 + 1 > 0 := by omega
      have hgt1 : r.length + 1 + 1 > 1 := by omega
      simp only [hgt0, hgt1, if_true]
      have hsep : ∀ v : String, append_separator ("fg=" ++ v) = "fg=" ++ v ++ "," := by
        intro v
        unfold append_separator
        rw [if_pos (hfg v)]
      have hsep0 : append_separator "" = "" := rfl
      by_cases ha : a = "default" <;> by_cases hb : b = "default"
      · have hres : (if (b != "default") = true then
            append_separator (if (a != "default") = true then "fg=" ++ a else "") ++ "bg=" ++ b
            else if (a != "default") = true then "fg=" ++ a else "") = join_commas [] := by
          simp [ha, hb, join_commas]
        rw [hres, foldl_attr_eq_join r [] (by simp)]
        simp [ha, hb]
      · have hres : (if (b != "default") = true then
            append_separator (if (a != "default") = true then "fg=" ++ a else "") ++ "bg=" ++ b
            else if (a != "default") = true then "fg=" ++ a else "") =
            join_commas ["bg=" ++ b] := by
          simp [ha, hb, join_commas, hsep0]
        rw [hres, foldl_attr_eq_join r ["bg=" ++ b] (by simpa using hbg b)]
        simp [ha, hb]
      · have hres : (if (b != "default") = true then
            append_separator (if (a != "default") = true then "fg=" ++ a else "") ++ "bg=" ++ b
            else if (a != "default") = true then "fg=" ++ a else "") =
            join_commas ["fg=" ++ a] := by
          simp [ha, hb, join_commas]
        rw [hres, foldl_attr_eq_join r ["fg=" ++ a] (by simpa using hfg a)]
        simp [ha, hb]
      · have hres : (if (b != "default") = true then
            append_separator (if (a != "default") = true then "fg=" ++ a else "") ++ "bg=" ++ b
            else if (a != "default") = true then "fg=" ++ a else "") =
            join_commas ["fg=" ++ a, "bg=" ++ b] := by
          simp only [bne_iff_ne, ne_eq, ha, hb, not_false_eq_true, if_true, hsep, join_commas,
            String.append_assoc]
        rw [hres, foldl_attr_eq_join r ["fg=" ++ a, "bg=" ++ b] (by
          intro y hy
          simp only [List.mem_cons, List.mem_singleton, List.not_mem_nil, or_false] at hy
          rcases hy with h | h <;> rw [h]
          · exact hfg a
          · exact hbg b)]
        simp [ha, hb]

/-- C17: for every list of colour tokens (fewer than 2^32 of them, and fuel for the loop over the
tokens from the third on), `make_colorstring` returns the components joined by single commas:
"fg=" ++ colors[0] if there is a first token other than "default", then "bg=" ++ colors[1] if
there is a second token other than "default", then "attr=" ++ colors[i] for every i ≥ 2 in order,
"default" included. No component is empty, so no comma stands first or next to another separator;
the result is empty for [], ["default"] and ["default", "default"]. -/
theorem make_colorstring_components (fuel : Nat) (colors : List String)
    (hlen : colors.length < 2 ^ 32) (hfuel : colors.length ≤ fuel + 2) :
    make_colorstring fuel colors = some (join_commas (color_components colors)) ∧
    color_components colors =
      (if 0 < colors.length ∧ colors.getD 0 "" ≠ "default" then ["fg=" ++ colors.getD 0 ""]
        else []) ++
      (if 1 < colors.length ∧ colors.getD 1 "" ≠ "default" then ["bg=" ++ colors.getD 1 ""]
        else []) ++
      (colors.drop 2).map (fun attr => "attr=" ++ attr) ∧
    (∀ c ∈ color_components colors, c.length > 0) ∧
    make_colorstring fuel [] = some "" ∧
    make_colorstring fuel ["default"] = some "" ∧
    make_colorstring fuel ["default", "default"] = some "" := by
  refine ⟨make_colorstring_eq_join fuel colors hlen hfuel, ?_, ?_, rfl, ?_, ?_⟩
  · cases colors with
    | nil => rfl
    | cons a t =>
      cases t with
      | nil =>
        unfold color_components
        by_cases ha : a = "default" <;> simp [ha]
      | cons b r =>
        unfold color_components
        by_cases ha : a = "default" <;> by_cases hb : b = "default" <;> simp [ha, hb]
  · intro c hc
    unfold color_components at hc
    rcases List.mem_append.mp hc with h | h
    · rcases List.mem_append.mp h with h1 | h1
      · cases hh : colors.head? with
        | none => rw [hh] at h1; simp at h1
        | some fg =>
          rw [hh] at h1
          by_cases hd : fg = "default"
          · simp [hd] at h1
          · simp only [hd, ne_eq, not_false_eq_true, if_true, List.mem_singleton] at h1
            rw [h1]
            exact component_pos _ fg (by decide)
      · cases hh : colors.tail.head? with
        | none => rw [hh] at h1; simp at h1
        | some bg =>
          rw [hh] at h1
          by_cases hd : bg = "default"
          · simp [hd] at h1
          · simp only [hd, ne_eq, not_false_eq_true, if_true, List.mem_singleton] at h1
            rw [h1]
            exact component_pos _ bg (by decide)
    · obtain ⟨attr, _, hattr⟩ := List.mem_map.mp h
      rw [← hattr]
      exact component_pos _ attr (by decide)
  · rw [make_colorstring_eq_join fuel ["default"] (by decide) (by simp)]
    rfl
  · rw [make_colorstring_eq_join fuel ["default", "default"] (by decide) (by simp)]
    rfl

/-- Witness for C17: foreground red, default background, two attributes. -/
theorem make_colorstring_components_witness :
    ["red", "default", "bold", "default"].length < 2 ^ 32 ∧
    ["red", "default", "bold", "default"].length ≤ 2 + 2 ∧
    make_colorstring 2 ["red", "default", "bold", "default"] =
      some "fg=red,attr=bold,attr=default" :=
  ⟨by decide, by decide,
    ((make_colorstring_components 2 ["red", "default", "bold", "default"] (by decide)
      (by decide)).1).trans (by decide)⟩

/-! ## Search state and highlighting -/

/-- C15: there are a record and a non-empty phrase, key "Q" with command "open" and description
"Open" and the phrase "q", for which, with search active, the record is rendered (the phrase
occurs in the key when case is ignored) and the line added carries no highlight marker, the
replacement comparing the phrase with its case. This holds for every escaping function that
leaves this line, which has no markup character, as it is. -/
theorem highlight_misses_other_case (ext : Externals)
    (hq : ext.quote_for_stfl "Q               open                    Open" =
      "Q               open                    Open") :
    (⟨"feedlist", "q", true⟩ : HelpFormAction).searchphrase.length > 0 ∧
    (strcasestr (c_str "Q") (c_str "q")).isSome = true ∧
    (strcasestr (c_str "open") (c_str "q")).isSome = false ∧
    (strcasestr (c_str "Open") (c_str "q")).isSome = false ∧
    visit ext ⟨"feedlist", "q", true⟩ 0 ⟨0, 0, ⟨[]⟩⟩ ⟨"Q", "open", "Open", "feedlist", 0⟩ =
      some ⟨0, 0, ⟨["Q               open                    Open"]⟩⟩ ∧
    '<' ∉ ("Q               open                    Open" : String).data := by
  have hsys : is_syskey ext ⟨"Q", "open", "Open", "feedlist", 0⟩ = false := by
    unfold is_syskey
    simp
  have hcount : count ext 0 ⟨0, 0, ⟨[]⟩⟩ ⟨"Q", "open", "Open", "feedlist", 0⟩ =
      ⟨0, 0, ⟨[]⟩⟩ := by
    unfold count
    rw [hsys]
    rfl
  have hskip : skipped ext ⟨"feedlist", "q", true⟩ 0 ⟨"Q", "open", "Open", "feedlist", 0⟩ =
      false := by
    unfold skipped condition
    rw [hsys]
    decide
  have hmatch : search_matches ⟨"feedlist", "q", true⟩ ⟨"Q", "open", "Open", "feedlist", 0⟩ =
      true := by decide
  have hline : padded_line 0 ⟨"Q", "open", "Open", "feedlist", 0⟩ =
      "Q               open                    Open" := by decide
  have hdec : decorate ext ⟨"feedlist", "q", true⟩
      "Q               open                    Open" =
      "Q               open                    Open" := by
    unfold decorate
    simp only [hq]
    decide
  refine ⟨by decide, by decide, by decide, by decide, ?_, by decide⟩
  rw [visit_of_short ext _ 0 _ _ (by decide)]
  unfold is_rendered
  rw [hcount, hskip, hmatch, hline, hdec]
  rfl

/-- Witness for C15: the escaping that writes `<>` for `<`. -/
theorem highlight_misses_other_case_witness :
    externals.quote_for_stfl "Q               open                    Open" =
      "Q               open                    Open" ∧
    visit externals ⟨"feedlist", "q", true⟩ 0 ⟨0, 0, ⟨[]⟩⟩
        ⟨"Q", "open", "Open", "feedlist", 0⟩ =
      some ⟨0, 0, ⟨["Q               open                    Open"]⟩⟩ :=
  ⟨by decide, (highlight_misses_other_case externals (by decide)).2.2.2.2.1⟩

/-- C16: `OP_CLEARFILTER` clears `apply_search` and keeps the stored phrase, and a new form has
search off; with search off the lines of `prepare` do not depend on the stored phrase: any two
runs on the same records and context that differ in the stored phrase return the same, the search
test passes for every record and the added line is the escaped line with nothing put into it. -/
theorem inactive_search_ignores_phrase (ext : Externals) (self : HelpFormAction)
    (descs : List KeyMapDesc) :
    (process_operation self .OP_CLEARFILTER).apply_search = false ∧
    (process_operation self .OP_CLEARFILTER).searchphrase = self.searchphrase ∧
    (process_operation self .OP_CLEARFILTER).context = self.context ∧
    HelpFormAction.create.apply_search = false ∧
    (∀ context p q, prepare ext ⟨context, p, false⟩ descs =
      prepare ext ⟨context, q, false⟩ descs) ∧
    (∀ p, prepare ext (process_operation self .OP_CLEARFILTER) descs =
      prepare ext ⟨self.context, p, false⟩ descs) ∧
    (∀ context p i st desc, visit ext ⟨context, p, false⟩ i st desc =
      visit ext ⟨context, "", false⟩ i st desc) ∧
    (∀ context p desc, search_matches ⟨context, p, false⟩ desc = true) ∧
    (∀ context p line, decorate ext ⟨context, p, false⟩ line = ext.quote_for_stfl line) := by
  have hvisit : ∀ context p q i st desc, visit ext ⟨context, p, false⟩ i st desc =
      visit ext ⟨context, q, false⟩ i st desc := by
    intro context p q i st desc
    unfold visit render decorate search_matches skipped
    simp
  refine ⟨rfl, rfl, rfl, rfl, ?_, ?_, ?_, ?_, ?_⟩
  · intro context p q
    exact prepare_congr ext _ _ (hvisit context p q) descs
  · intro p
    exact prepare_congr ext _ _ (hvisit self.context self.searchphrase p) descs
  · intro context p i st desc
    exact hvisit context p "" i st desc
  · intro context p desc
    unfold search_matches
    simp
  · intro context p line
    unfold decorate
    simp

namespace TextviewWidget

/-- C11: on n lines with viewport height h ≥ 1, `scroll_to_bottom` sets the offset to
max(0, n − h + 1) whatever the prior offset and leaves the line count alone; when the content
exceeds the viewport the h rows from the offset on are the last lines and one row past them. With
10 lines and height 5 the offset becomes 6. -/
theorem scroll_to_bottom_offset (w : TextviewWidget) (h : Nat) (hh : 1 ≤ h) :
    ((scroll_to_bottom w h).scroll_offset : Int) =
      max 0 ((w.num_lines : Int) - (h : Int) + 1) ∧
    (scroll_to_bottom w h).num_lines = w.num_lines ∧
    (∀ o, scroll_to_bottom ⟨w.num_lines, o⟩ h = scroll_to_bottom w h) ∧
    (h < w.num_lines → (scroll_to_bottom w h).scroll_offset + (h - 1) = w.num_lines) ∧
    (scroll_to_bottom ⟨10, 2⟩ 5).scroll_offset = 6 := by
  refine ⟨?_, rfl, fun _ => rfl, ?_, by decide⟩
  · unfold scroll_to_bottom max_offset
    dsimp only
    omega
  · intro hlt
    unfold scroll_to_bottom max_offset
    dsimp only
    omega

/-- Witness for C11: 10 lines, height 5, prior offset 2. -/
theorem scroll_to_bottom_offset_witness :
    1 ≤ 5 ∧
    ((scroll_to_bottom ⟨10, 2⟩ 5).scroll_offset : Int) =
      max 0 (((⟨10, 2⟩ : TextviewWidget).num_lines : Int) - ((5 : Nat) : Int) + 1) :=
  ⟨by decide, (scroll_to_bottom_offset ⟨10, 2⟩ 5 (by decide)).1⟩

end TextviewWidget

end Newsboat
